import Mathlib

/-!
# Verification of the heatmap-AP propagation engine

This file is a shallow embedding, in Lean 4, of the signal-propagation core of
the `heatmap-AP` repository:

* `src/utils/geometry.ts` — segment intersection (`getIntersection`);
* `src/utils/waveEngine.ts` — attenuation-grid builder, Dijkstra-style signal
  solver with a sorted-insert priority queue, reflection engine with a
  power-sum merge (namespace `WE`);
* `src/public/wave-worker.js`, first revision — binary-heap solver with the
  hybrid effective-distance rule, reflection and multi-source max-merges
  (namespace `WA`);
* `src/public/wave-worker.js`, second revision — attenuation-grid builder with
  the ×2 barrier multiplier, directional-antenna solver, and the per-emitter
  cache of the `onmessage` handler (namespace `WB`).

All signal values manipulated by the solvers have the exact form
`a + (1/2)·log₁₀ m` with `a m : ℚ`; the type `LV` below represents such a
value by the pair `(a, m)`, so that every comparison the JavaScript code
performs on (floating-point approximations of) these reals can be decided
exactly by integer arithmetic.  The denotation `LV.val : LV → ℝ` ties the
computable development to the real-valued semantics.
-/

set_option exponentiation.threshold 10000000
set_option maxRecDepth 4000

namespace HeatmapAP

-- Batteries marks the arithmetic on `ℚ` irreducible; restore reducibility so
-- that concrete runs of the engine can be evaluated by `decide`.
attribute [local semireducible] Rat.mul Rat.add Rat.sub Rat.inv


/-- Integer power computed through `Nat.pow` (so that both the kernel and the
interpreter evaluate it by fast binary exponentiation). -/
def ipow (p : ℤ) (k : ℕ) : ℤ :=
  let m : ℤ := (Nat.pow p.natAbs k : ℕ)
  if p < 0 ∧ k % 2 = 1 then -m else m

/-- Exact representation of the value `a + (1/2)·log₁₀ m` (`m` is kept
positive by every constructor the engine uses). -/
structure LV where
  a : ℚ
  m : ℚ
  deriving DecidableEq, Repr

namespace LV


/-- Real denotation of an `LV`. -/
noncomputable def val (x : LV) : ℝ := x.a + Real.logb 10 x.m / 2

/-- `m` is positive; all values the engine builds satisfy this. -/
def Pos (x : LV) : Prop := 0 < x.m

instance (x : LV) : Decidable x.Pos := by unfold Pos; infer_instance

/-- Decide `val x < val y` by exact integer arithmetic: with
`r = 2(y.a - x.a)`, the inequality is equivalent to
`x.m ^ r.den < y.m ^ r.den * 10 ^ r.num`, which cross-multiplies to the
integer comparison below (`10^r.num` is split into its positive and negative
parts so that only natural-number exponentiation occurs). -/
def blt (x y : LV) : Bool :=
  let r : ℚ := 2 * (y.a - x.a)
  let k := r.den
  let n := r.num
  decide (ipow x.m.num k * ((Nat.pow y.m.den k : ℕ) : ℤ) * ((Nat.pow 10 (Int.toNat (-n)) : ℕ) : ℤ)
    < ipow y.m.num k * ((Nat.pow x.m.den k : ℕ) : ℤ) * ((Nat.pow 10 (Int.toNat n) : ℕ) : ℤ))

/-- The sentinel floor `-120 dBm`. -/
def floor : LV := ⟨-120, 1⟩

end LV


/-! ## Shared data model (`src/types/index.ts`) -/

/-- `Point`: pixel-space coordinates. -/
structure Pt where
  x : ℚ
  y : ℚ
  deriving DecidableEq, Repr

/-- `WallMaterial`. -/
inductive Material where
  | glass | drywall | wood | brick | concrete | metal
  deriving DecidableEq, Repr

/-- `Wall`. -/
structure Wall where
  id : String
  start : Pt
  «end» : Pt
  material : Material
  thickness : ℚ
  deriving DecidableEq, Repr

/-- `Door` (the propagation engine reads only these fields). -/
structure Door where
  id : String
  wallId : String
  ratio : ℚ
  width : ℚ
  deriving DecidableEq, Repr

/-- `MATERIAL_ATTENUATION` from `src/types/index.ts` (imported by
`waveEngine.ts`). -/
def materialAttenuationTypes : Material → ℚ
  | .glass => 3 | .drywall => 3 | .wood => 4
  | .brick => 10 | .concrete => 15 | .metal => 50

/-- Inlined `MATERIAL_ATTENUATION` of the first `wave-worker.js` revision. -/
def materialAttenuationWorkerA : Material → ℚ
  | .glass => 3 | .drywall => 4 | .wood => 6
  | .brick => 10 | .concrete => 15 | .metal => 40

/-- Inlined `MATERIAL_ATTENUATION` of the second `wave-worker.js` revision. -/
def materialAttenuationWorkerB : Material → ℚ
  | .glass => 3 | .drywall => 5 | .wood => 8
  | .brick => 20 | .concrete => 35 | .metal => 80

/-- `DEFAULT_PIXELS_PER_METER`. -/
def defaultPixelsPerMeter : ℚ := 40

/-- `Math.sign`, restricted to the exact rational inputs the engine feeds
it. -/
def qsign (q : ℚ) : ℤ := if q < 0 then -1 else if q = 0 then 0 else 1

/-- `getSideOfLine(a, b, p)`: sign of the 2D cross product. -/
def getSideOfLine (a b p : Pt) : ℤ :=
  qsign ((b.x - a.x) * (p.y - a.y) - (b.y - a.y) * (p.x - a.x))

/-- `mirrorPointAcrossLine(point, lineStart, lineEnd)`. -/
def mirrorPointAcrossLine (point lineStart lineEnd : Pt) : Pt :=
  let dx := lineEnd.x - lineStart.x
  let dy := lineEnd.y - lineStart.y
  let len2 := dx * dx + dy * dy
  if len2 = 0 then point
  else
    let t := ((point.x - lineStart.x) * dx + (point.y - lineStart.y) * dy) / len2
    let projX := lineStart.x + t * dx
    let projY := lineStart.y + t * dy
    ⟨2 * projX - point.x, 2 * projY - point.y⟩

/-! ## Exact decisions about square roots

Wall lengths are `Math.hypot` values, i.e. square roots of rationals; the
comparisons the builders perform on them are decided exactly on the squares. -/

/-- Auxiliary for `ceilSqrtQ`: the least `s' ≥ s` with `nn ≤ s'² · dd`,
found by fuel-bounded upward search (structural recursion, so concrete calls
reduce inside the kernel). -/
def sqrtAux (nn dd : ℕ) : ℕ → ℕ → ℕ
  | s, 0 => s
  | s, Nat.succ fuel => if nn ≤ s ^ 2 * dd then s else sqrtAux nn dd (s + 1) fuel

/-- `⌈√q⌉` for a rational `q` (0 for `q ≤ 0`): the number of sample steps
`Math.ceil(wallLength / (cellSize/2))` equals `ceilSqrtQ (4·S/cs²)` where `S`
is the squared wall length. -/
def ceilSqrtQ (q : ℚ) : ℕ :=
  if q.num ≤ 0 then 0
  else sqrtAux (Int.toNat q.num) q.den 0 (Int.toNat q.num)

/-- Decide `a·√S ≤ b` (for `S ≥ 0`) by squaring. -/
def leSqrt (a S b : ℚ) : Bool :=
  if 0 ≤ a then decide (0 ≤ b ∧ a ^ 2 * S ≤ b ^ 2)
  else if 0 ≤ b then true
  else decide (b ^ 2 ≤ a ^ 2 * S)

namespace WE

/-! ## `src/utils/waveEngine.ts` -/


/-- `AccessPoint` (the engine reads only position and power). -/
structure AccessPoint where
  id : String
  x : ℚ
  y : ℚ
  txPower : ℚ
  deriving DecidableEq, Repr

/-- Density in dB/m stamped for a wall
(`waveEngine.ts:buildAttenuationGrid`): metal gets the fixed 2000 dB/m,
other materials `MATERIAL_ATTENUATION[material] / thicknessMeters`.
JavaScript's `wall.thickness || 12` default is the `if … = 0` branch. -/
def density (ppm : ℚ) (w : Wall) : ℚ :=
  let thicknessPixels := if w.thickness = 0 then 12 else w.thickness
  let thicknessMeters := thicknessPixels / ppm
  if w.material = .metal then 2000
  else materialAttenuationTypes w.material / thicknessMeters

/-- One door's gap test at a sample: `distAlongWall` lies in
`[doorPos - width/2, doorPos + width/2]`, where `distAlongWall = t·L`,
`doorPos = ratio·L` and `L = √S` is the wall length.  Both closed-interval
bounds are decided exactly on squares by `leSqrt`. -/
def inGap (d : Door) (t S : ℚ) : Bool :=
  leSqrt (d.ratio - t) S (d.width / 2) && leSqrt (t - d.ratio) S (d.width / 2)

/-- Stamp the square block of cells of the given radius around
`(baseCol, baseRow)` with `max existing density` (bounds-checked). -/
def stampBlock (cols rows radius : ℕ) (baseCol baseRow : ℤ) (density : ℚ)
    (grid : List ℚ) : List ℚ :=
  (List.range (2 * radius + 1)).foldl (fun g kr =>
    (List.range (2 * radius + 1)).foldl (fun g kc =>
      let r := baseRow + (kr : ℤ) - radius
      let c := baseCol + (kc : ℤ) - radius
      if 0 ≤ r ∧ r < rows ∧ 0 ≤ c ∧ c < cols then
        let idx := (r * cols + c).toNat
        g.set idx (max (g.getD idx 0) density)
      else g) g) grid

/-- Rasterize one wall (`waveEngine.ts`, the body of the wall loop).  A wall
of zero length is a no-op: in the source `steps = 0` makes `t = 0/0 = NaN`
and the NaN cell coordinates fail every bounds check; `cellSize ≤ 0` likewise
yields no loop iterations (negative step count) or a hang (`cellSize = 0`),
so nothing is stamped. -/
def stampWall (doors : List Door) (cols rows : ℕ) (cellSize ppm : ℚ)
    (grid : List ℚ) (wall : Wall) : List ℚ :=
  let S := (wall.«end».x - wall.start.x) ^ 2 + (wall.«end».y - wall.start.y) ^ 2
  if S = 0 ∨ cellSize ≤ 0 then grid
  else
    let steps := ceilSqrtQ (4 * S / cellSize ^ 2)
    let thicknessPixels := if wall.thickness = 0 then 12 else wall.thickness
    let d := density ppm wall
    let thicknessInCells : ℕ := max 1 (Int.toNat ⌈thicknessPixels / cellSize⌉)
    let radius := thicknessInCells / 2
    let wallDoors := doors.filter (fun dr => dr.wallId = wall.id)
    (List.range (steps + 1)).foldl (fun g i =>
      let t : ℚ := (i : ℚ) / steps
      let x := wall.start.x + (wall.«end».x - wall.start.x) * t
      let y := wall.start.y + (wall.«end».y - wall.start.y) * t
      let baseCol : ℤ := ⌊x / cellSize⌋
      let baseRow : ℤ := ⌊y / cellSize⌋
      if wallDoors.any (fun dr => inGap dr t S) then g
      else stampBlock cols rows radius baseCol baseRow d g) grid

/-- `buildAttenuationGrid(walls, doors, width, height, cellSize, ppm)`. -/
def buildAttenuationGrid (walls : List Wall) (doors : List Door)
    (width height cellSize ppm : ℚ) : List ℚ :=
  let cols := Int.toNat ⌈width / cellSize⌉
  let rows := Int.toNat ⌈height / cellSize⌉
  walls.foldl (stampWall doors cols rows cellSize ppm)
    (List.replicate (cols * rows) 0)

/-! ### The Dijkstra-style solver -/

/-- The priority queue of `waveEngine.ts`: a list sorted by priority
(highest signal first); `enqueue` inserts before the first strictly smaller
priority, `dequeue` takes the head. -/
def pqEnqueue (q : List (ℕ × LV)) (e : ℕ × LV) : List (ℕ × LV) :=
  match q with
  | [] => [e]
  | h :: t => if LV.blt h.2 e.2 then e :: h :: t else h :: pqEnqueue t e

/-- Ghost record of one performed relaxation (cell index, previous recorded
value, new recorded value). -/
structure RelaxRec where
  idx : ℕ
  old : LV
  new : LV
  deriving DecidableEq, Repr

/-- Solver parameters: attenuation grid, dimensions, geometry scales and the
optional cell mask (`maskFn`; `fun _ _ => true` when absent). -/
structure Params where
  att : List ℚ
  cols : ℕ
  rows : ℕ
  cellSize : ℚ
  ppm : ℚ
  startPt : Pt
  startSignal : LV
  mask : ℕ → ℕ → Bool

/-- The 8 neighbour directions with their step lengths in meters
(`1.4142` is the literal constant of the source). -/
def Params.directions (P : Params) : List (ℤ × ℤ × ℚ) :=
  let step := P.cellSize / P.ppm
  let diag := step * (14142 / 10000)
  [(-1, 0, step), (1, 0, step), (0, -1, step), (0, 1, step),
   (-1, -1, diag), (-1, 1, diag), (1, -1, diag), (1, 1, diag)]

/-- Target cell of direction number `di` from cell `idx`: `some (newIdx, δ)`
when the neighbour is in bounds and allowed by the mask. -/
def Params.target (P : Params) (idx di : ℕ) : Option (ℕ × ℚ) :=
  match P.directions.get? di with
  | none => none
  | some (dr, dc, δ) =>
    let r : ℤ := (idx / P.cols : ℕ)
    let c : ℤ := (idx % P.cols : ℕ)
    let nr := r + dr
    let nc := c + dc
    if 0 ≤ nr ∧ nr < P.rows ∧ 0 ≤ nc ∧ nc < P.cols ∧ P.mask (Int.toNat nc) (Int.toNat nr) then
      some ((nr * P.cols + nc).toNat, δ)
    else none

/-- One relaxation value:
`newSignal = currentSignal - 30·log₁₀(newDist/currentDist) - attenuation·δ`,
i.e. `a` drops by the wall loss and `m` picks up `(curD/newD)^60`
(`30·log₁₀ x = ½·log₁₀ x^60`). -/
def relaxLV (cur : LV) (curD newD attn δ : ℚ) : LV :=
  ⟨cur.a - attn * δ, cur.m * (curD / newD) ^ 60⟩

/-- Solver state: the signal grid, the recorded path distances
(`none` = `Infinity`), the priority queue, and the ghost relaxation trace. -/
structure DState where
  signal : List LV
  dist : List (Option ℚ)
  queue : List (ℕ × LV)
  trace : List RelaxRec

/-- Signal value of cell `i` (out-of-range reads return the floor, as the
grids are fixed-size in the source). -/
def getS (s : DState) (i : ℕ) : LV := s.signal.getD i LV.floor

/-- Attempt one neighbour relaxation from the popped cell `idx` whose
captured state is `(cur, curD)`. -/
def relaxOne (P : Params) (idx : ℕ) (cur : LV) (curD : ℚ)
    (s : DState) (di : ℕ) : DState :=
  match P.target idx di with
  | none => s
  | some (newIdx, δ) =>
    let attn := P.att.getD newIdx 0
    let newD := curD + δ
    let newSignal := relaxLV cur curD newD attn δ
    if LV.blt (getS s newIdx) newSignal then
      { signal := s.signal.set newIdx newSignal
        dist := s.dist.set newIdx (some newD)
        queue := pqEnqueue s.queue (newIdx, newSignal)
        trace := s.trace ++ [⟨newIdx, getS s newIdx, newSignal⟩] }
    else s

/-- One iteration of the `while (!pq.isEmpty())` loop: pop, stop if the
signal already decayed to the floor, otherwise relax the 8 neighbours. -/
def runStep (P : Params) (s : DState) : DState :=
  match s.queue with
  | [] => s
  | (idx, _) :: rest =>
    let s' : DState := { s with queue := rest }
    let cur := getS s' idx
    if ! LV.blt LV.floor cur then s'   -- `if (currentSignal <= -120) continue`
    else
      let curD := (s'.dist.getD idx none).getD 0
      (List.range P.directions.length).foldl (relaxOne P idx cur curD) s'

/-- Fuelled pop-until-empty loop. -/
def run (P : Params) : ℕ → DState → DState
  | 0, s => s
  | fuel + 1, s =>
    match s.queue with
    | [] => s
    | _ => run P fuel (runStep P s)

/-- Whether the start cell is inside the grid. -/
def Params.startCol (P : Params) : ℤ := ⌊P.startPt.x / P.cellSize⌋

def Params.startRow (P : Params) : ℤ := ⌊P.startPt.y / P.cellSize⌋

def Params.inBounds (P : Params) : Prop :=
  0 ≤ P.startCol ∧ P.startCol < P.cols ∧ 0 ≤ P.startRow ∧ P.startRow < P.rows

instance (P : Params) : Decidable P.inBounds := by
  unfold Params.inBounds; infer_instance

def Params.startIdx (P : Params) : ℕ := (P.startRow * P.cols + P.startCol).toNat

/-- The state before the loop: all cells at the floor / infinite distance,
the source cell seeded with `(startSignal, 0.1 m)` and enqueued. -/
def initState (P : Params) : DState :=
  let size := P.cols * P.rows
  { signal := (List.replicate size LV.floor).set P.startIdx P.startSignal
    dist := (List.replicate size (none : Option ℚ)).set P.startIdx (some (1 / 10))
    queue := [(P.startIdx, P.startSignal)]
    trace := [] }

/-- `runDijkstra`: early all-floor return when the source cell is out of
bounds, otherwise the fuelled loop from the seeded state. -/
def runDijkstra (P : Params) (fuel : ℕ) : DState :=
  if P.inBounds then run P fuel (initState P)
  else
    { signal := List.replicate (P.cols * P.rows) LV.floor
      dist := List.replicate (P.cols * P.rows) (none : Option ℚ)
      queue := []
      trace := [] }

/-! ### Path semantics

A path is a list of direction numbers followed from the source cell; its
evaluation replays exactly the relaxation arithmetic of the solver. -/

/-- Extend a partially evaluated path by one direction. -/
def pathStep (P : Params) (acc : Option (ℕ × LV × ℚ)) (di : ℕ) :
    Option (ℕ × LV × ℚ) :=
  match acc with
  | none => none
  | some (idx, lv, d) =>
    match P.target idx di with
    | none => none
    | some (newIdx, δ) =>
      let attn := P.att.getD newIdx 0
      some (newIdx, relaxLV lv d (d + δ) attn δ, d + δ)

/-- Cell, signal value and accumulated distance reached by a path (`none`
when the path leaves the grid or the mask). -/
def pathEval (P : Params) (dirs : List ℕ) : Option (ℕ × LV × ℚ) :=
  dirs.foldl (pathStep P) (some (P.startIdx, P.startSignal, 1 / 10))

/-- Master invariant of the solver loop: grids have the right size, every
recorded non-floor value is realized by an actual path (with matching
recorded distance), and every relaxation in the trace was a strict
improvement. -/
structure Good (P : Params) (s : DState) : Prop where
  len_sig : s.signal.length = P.cols * P.rows
  len_dist : s.dist.length = P.cols * P.rows
  sound : ∀ i, getS s i = LV.floor ∨
    ∃ dirs d, pathEval P dirs = some (i, getS s i, d) ∧ s.dist.getD i none = some d
  trace_lt : ∀ rec ∈ s.trace, LV.val rec.old < LV.val rec.new

/-- The bottleneck scene for the optimality counterexample: a 4×3 grid.
Row-major attenuation densities (cell size 40 px at 40 px/m, so steps are
1 m / 1.4142 m): the source sits at cell (0,1), a lossy cell of density
4 dB/m at (1,1) guards the short route to cell (2,1), the detour through
row 0 is loss-free, and density-3000 cells wall off cell (3,1) from
everything but (2,1). -/
def mazeParams : Params :=
  { att := [0, 0, 3000, 3000, 0, 4, 0, 0, 0, 0, 3000, 3000],
    cols := 4, rows := 3, cellSize := 40, ppm := 40,
    startPt := ⟨20, 60⟩, startSignal := ⟨20, 1⟩, mask := fun _ _ => true }

/-! ### `propagateWave` of `waveEngine.ts` -/

/-- The start signal of the main run:
`ap.txPower - (30·log₁₀(0.1) + CONSTANT_FSPL)` with
`CONSTANT_FSPL = 20·log₁₀(2400) - 27.55`, i.e. exactly
`txPower + 57.55 - 20·log₁₀ 2400`. -/
def mainStartLV (tx : ℚ) : LV := ⟨tx + 1151 / 20, ((1 : ℚ) / 2400) ^ 40⟩

/-- The start signal of a reflection run: the same minus the 2.2 dB metal
reflection loss. -/
def reflStartLV (tx : ℚ) : LV := ⟨tx + 1151 / 20 - 11 / 5, ((1 : ℚ) / 2400) ^ 40⟩

/-- Solver parameters of the main (unmasked) run of `propagateWave`. -/
def mainParams (ap : AccessPoint) (walls : List Wall) (doors : List Door)
    (width height cellSize ppm : ℚ) : Params :=
  { att := buildAttenuationGrid walls doors width height cellSize ppm,
    cols := Int.toNat ⌈width / cellSize⌉, rows := Int.toNat ⌈height / cellSize⌉,
    cellSize := cellSize, ppm := ppm, startPt := ⟨ap.x, ap.y⟩,
    startSignal := mainStartLV ap.txPower, mask := fun _ _ => true }

/-- `getSideOfLine(wall.start, wall.end, ap)`. -/
def apSideOf (ap : AccessPoint) (wall : Wall) : ℤ :=
  getSideOfLine wall.start wall.«end» ⟨ap.x, ap.y⟩

/-- Solver parameters of one reflection run of `propagateWave`: the
attenuation grid is rebuilt with the mirror wall excluded, the source is the
mirrored virtual AP, and the mask admits exactly the cells whose center lies
on the same side of the wall as the real AP. -/
def reflectionParams (ap : AccessPoint) (wall : Wall) (walls : List Wall)
    (doors : List Door) (width height cellSize ppm : ℚ) : Params :=
  { att := buildAttenuationGrid (walls.filter (fun w2 => w2.id ≠ wall.id))
      doors width height cellSize ppm,
    cols := Int.toNat ⌈width / cellSize⌉, rows := Int.toNat ⌈height / cellSize⌉,
    cellSize := cellSize, ppm := ppm,
    startPt := mirrorPointAcrossLine ⟨ap.x, ap.y⟩ wall.start wall.«end»,
    startSignal := reflStartLV ap.txPower,
    mask := fun c r => decide (getSideOfLine wall.start wall.«end»
      ⟨(c : ℚ) * cellSize + cellSize / 2, (r : ℚ) * cellSize + cellSize / 2⟩ =
        apSideOf ap wall) }

/-- The power-sum merge of one cell of the reflection loop
(`if refVal > -120 then (main ≤ -120 ? ref : 10·log₁₀(10^(main/10)+10^(ref/10)))`). -/
noncomputable def mergeCell (mainVal refVal : ℝ) : ℝ :=
  if -120 < refVal then
    (if mainVal ≤ -120 then refVal
     else 10 * Real.logb 10 ((10 : ℝ) ^ (mainVal / 10) + (10 : ℝ) ^ (refVal / 10)))
  else mainVal

/-- `propagateWave`: the main run merged, wall by metal wall, with the
masked reflection runs (an empty metal list leaves the main grid unchanged,
matching the source's early return). -/
noncomputable def propagateWave (ap : AccessPoint) (walls : List Wall)
    (doors : List Door) (width height cellSize ppm : ℚ) (fuel : ℕ) : List ℝ :=
  let mainGrid :=
    ((runDijkstra (mainParams ap walls doors width height cellSize ppm) fuel).signal).map LV.val
  (walls.filter (fun w2 => w2.material = .metal)).foldl
    (fun g wall => List.zipWith mergeCell g
      (((runDijkstra (reflectionParams ap wall walls doors width height cellSize ppm)
        fuel).signal).map LV.val))
    mainGrid

/-- The mask value responsible for cell `i`. -/
def maskAt (P : Params) (i : ℕ) : Bool := P.mask (i % P.cols) (i / P.cols)

/-- The "masked cells stay at the floor" invariant. -/
def NotMasked (P : Params) (s : DState) : Prop :=
  ∀ i, maskAt P i = false → i ≠ P.startIdx → getS s i = LV.floor

/-- A two-cell open scene with a regular start signal. -/
def smallParams : Params :=
  { att := [0, 0], cols := 2, rows := 1, cellSize := 10, ppm := 40,
    startPt := ⟨5, 5⟩, startSignal := ⟨20, 1⟩, mask := fun _ _ => true }

/-- The same scene with a start signal below the −120 floor. -/
def lowParams : Params :=
  { att := [0, 0], cols := 2, rows := 1, cellSize := 10, ppm := 40,
    startPt := ⟨5, 5⟩, startSignal := ⟨-130, 1⟩, mask := fun _ _ => true }

/-- A scene whose source point lies left of the grid. -/
def oobParams : Params :=
  { att := [0, 0], cols := 2, rows := 1, cellSize := 10, ppm := 40,
    startPt := ⟨-5, 5⟩, startSignal := ⟨20, 1⟩, mask := fun _ _ => true }

/-! ## C5: the reflection mask -/


/-- The metal wall and emitter of the reflection counterexample. -/
def c5ap : AccessPoint := ⟨"ap", 5, 5, 20⟩

def c5wall : Wall := ⟨"w", ⟨20, 0⟩, ⟨20, 10⟩, .metal, 12⟩

/-- The reflection run for the single metal wall: the virtual source is the
mirror point (35, 5), whose cell lies on the far side of the wall. -/
def c5P : Params := reflectionParams c5ap c5wall [c5wall] [] 40 10 10 40

/-- The same reflection scene on a wider canvas, so that a far-side cell
other than the virtual source exists. -/
def c5Pw : Params := reflectionParams c5ap c5wall [c5wall] [] 50 10 10 40

end WE

namespace WB


/-! ### The second worker revision's builder -/


/-- Stamped density in the second `wave-worker.js` revision: every material
(including metal) derives its density from thickness, with a ×2 barrier
multiplier for concrete, brick and metal. -/
def density (ppm : ℚ) (w : Wall) : ℚ :=
  let thicknessPixels := if w.thickness = 0 then 12 else w.thickness
  let thicknessMeters := thicknessPixels / ppm
  let base := materialAttenuationWorkerB w.material / thicknessMeters
  if w.material = .concrete ∨ w.material = .brick ∨ w.material = .metal then base * 2
  else base

/-- Rasterize one wall (second revision): samples at cellSize/4, radius
`ceil(thicknessInCells/2)` with `thicknessInCells = max(minCells·2,
thicknessPx/cellSize)` where `minCells` is 1.5 for concrete/brick/metal and
0.5 otherwise. -/
def stampWall (doors : List Door) (cols rows : ℕ) (cellSize ppm : ℚ)
    (grid : List ℚ) (wall : Wall) : List ℚ :=
  let S := (wall.«end».x - wall.start.x) ^ 2 + (wall.«end».y - wall.start.y) ^ 2
  if S = 0 ∨ cellSize ≤ 0 then grid
  else
    let steps := ceilSqrtQ (16 * S / cellSize ^ 2)
    let thicknessPixels := if wall.thickness = 0 then 12 else wall.thickness
    let d := density ppm wall
    let minThicknessCells : ℚ :=
      if wall.material = .concrete ∨ wall.material = .brick ∨ wall.material = .metal
      then 3 / 2 else 1 / 2
    let thicknessInCells : ℚ := max (minThicknessCells * 2) (thicknessPixels / cellSize)
    let radius : ℕ := Int.toNat ⌈thicknessInCells / 2⌉
    let wallDoors := doors.filter (fun dr => dr.wallId = wall.id)
    (List.range (steps + 1)).foldl (fun g i =>
      let t : ℚ := (i : ℚ) / steps
      let x := wall.start.x + (wall.«end».x - wall.start.x) * t
      let y := wall.start.y + (wall.«end».y - wall.start.y) * t
      let baseCol : ℤ := ⌊x / cellSize⌋
      let baseRow : ℤ := ⌊y / cellSize⌋
      if wallDoors.any (fun dr => WE.inGap dr t S) then g
      else WE.stampBlock cols rows radius baseCol baseRow d g) grid

/-- `buildAttenuationGrid` of the second revision. -/
def buildAttenuationGrid (walls : List Wall) (doors : List Door)
    (width height cellSize ppm : ℚ) : List ℚ :=
  let cols := Int.toNat ⌈width / cellSize⌉
  let rows := Int.toNat ⌈height / cellSize⌉
  walls.foldl (stampWall doors cols rows cellSize ppm)
    (List.replicate (cols * rows) 0)

/-- Thin and thick metal walls, identical otherwise. -/
def thinMetal : Wall := ⟨"w", ⟨20, 0⟩, ⟨20, 10⟩, .metal, 12⟩

def thickMetal : Wall := ⟨"w", ⟨20, 0⟩, ⟨20, 10⟩, .metal, 24⟩

end WB

namespace WA


/-! ### The first worker revision (`wave-worker.js`, binary-heap solver)

The solver state tracks total loss; all its values are of the log-exact
form `a + ½·log₁₀ m` (`35·log₁₀ x = ½·log₁₀ x⁷⁰`,
`20·log₁₀ 5000 = ½·log₁₀ 5000⁴⁰`), so every floating-point comparison of
the source is decided exactly on `LV`. -/


/-- Stamped density of the first worker revision: metal gets the fixed
2000 dB/m, other materials `MATERIAL_ATTENUATION[material] / thicknessMeters`
with the worker's own table (drywall 4, wood 6, …). -/
def density (ppm : ℚ) (w : Wall) : ℚ :=
  let thicknessPixels := if w.thickness = 0 then 12 else w.thickness
  let thicknessMeters := thicknessPixels / ppm
  if w.material = .metal then 2000
  else materialAttenuationWorkerA w.material / thicknessMeters

/-- Rasterize one wall (worker revision 1: samples at cellSize/2 like the
engine, worker material table). -/
def stampWall (doors : List Door) (cols rows : ℕ) (cellSize ppm : ℚ)
    (grid : List ℚ) (wall : Wall) : List ℚ :=
  let S := (wall.«end».x - wall.start.x) ^ 2 + (wall.«end».y - wall.start.y) ^ 2
  if S = 0 ∨ cellSize ≤ 0 then grid
  else
    let steps := ceilSqrtQ (4 * S / cellSize ^ 2)
    let thicknessPixels := if wall.thickness = 0 then 12 else wall.thickness
    let d := density ppm wall
    let thicknessInCells : ℕ := max 1 (Int.toNat ⌈thicknessPixels / cellSize⌉)
    let radius := thicknessInCells / 2
    let wallDoors := doors.filter (fun dr => dr.wallId = wall.id)
    (List.range (steps + 1)).foldl (fun g i =>
      let t : ℚ := (i : ℚ) / steps
      let x := wall.start.x + (wall.«end».x - wall.start.x) * t
      let y := wall.start.y + (wall.«end».y - wall.start.y) * t
      let baseCol : ℤ := ⌊x / cellSize⌋
      let baseRow : ℤ := ⌊y / cellSize⌋
      if wallDoors.any (fun dr => WE.inGap dr t S) then g
      else WE.stampBlock cols rows radius baseCol baseRow d g) grid

def buildAttenuationGrid (walls : List Wall) (doors : List Door)
    (width height cellSize ppm : ℚ) : List ℚ :=
  let cols := Int.toNat ⌈width / cellSize⌉
  let rows := Int.toNat ⌈height / cellSize⌉
  walls.foldl (stampWall doors cols rows cellSize ppm)
    (List.replicate (cols * rows) 0)

/-! #### The binary-heap priority queue -/

/-- `bubbleUp` of the source, fuelled (the index strictly decreases, so the
initial index bounds the iteration count). -/
def bubbleUpAux : ℕ → List (ℕ × LV) → ℕ → List (ℕ × LV)
  | 0, h, _ => h
  | fuel + 1, h, idx =>
    if idx = 0 then h
    else
      let parentIdx := (idx - 1) / 2
      let element := h.getD idx (0, LV.floor)
      let parent := h.getD parentIdx (0, LV.floor)
      if ! LV.blt element.2 parent.2 then h
      else bubbleUpAux fuel ((h.set parentIdx element).set idx parent) parentIdx

/-- `enqueue`: push the node, then bubble up from the last slot. -/
def pqEnqueue (h : List (ℕ × LV)) (e : ℕ × LV) : List (ℕ × LV) :=
  let h' := h ++ [e]
  bubbleUpAux h'.length h' (h'.length - 1)

/-- `sinkDown` of the source, fuelled (the index strictly increases below
the length). -/
def sinkDownAux : ℕ → List (ℕ × LV) → ℕ → List (ℕ × LV)
  | 0, h, _ => h
  | fuel + 1, h, idx =>
    let length := h.length
    let element := h.getD idx (0, LV.floor)
    let l := 2 * idx + 1
    let r := 2 * idx + 2
    let swapL : Option ℕ :=
      if l < length ∧ LV.blt (h.getD l (0, LV.floor)).2 element.2 then some l else none
    let swap : Option ℕ :=
      if r < length then
        match swapL with
        | none => if LV.blt (h.getD r (0, LV.floor)).2 element.2 then some r else none
        | some li =>
          if LV.blt (h.getD r (0, LV.floor)).2 (h.getD li (0, LV.floor)).2 then some r
          else swapL
      else swapL
    match swap with
    | none => h
    | some si => sinkDownAux fuel ((h.set idx (h.getD si (0, LV.floor))).set si element) si

/-- `dequeue`: return the root, move the last node to the root and sink it
down; `none` on the empty heap. -/
def pqDequeue (h : List (ℕ × LV)) : Option (ℕ × List (ℕ × LV)) :=
  match h with
  | [] => none
  | min :: _ =>
    let popped := h.dropLast
    if popped.isEmpty then some (min.1, [])
    else
      let endE := h.getD (h.length - 1) (0, LV.floor)
      some (min.1, sinkDownAux popped.length (popped.set 0 endE) 0)

/-! #### Solver -/

/-- Parameters of `runDijkstra` (worker revision 1): `startSignal` is the
raw dBm number (`ap.txPower`), `mask` is `maskFn` (constantly true when the
source passes no mask). -/
structure Params where
  att : List ℚ
  cols : ℕ
  rows : ℕ
  cellSize : ℚ
  ppm : ℚ
  startPt : Pt
  startSignal : ℚ
  mask : ℕ → ℕ → Bool

def Params.directions (P : Params) : List (ℤ × ℤ × ℚ) :=
  let step := P.cellSize / P.ppm
  let diag := step * (14142 / 10000)
  [(-1, 0, step), (1, 0, step), (0, -1, step), (0, 1, step),
   (-1, -1, diag), (-1, 1, diag), (1, -1, diag), (1, 1, diag)]

/-- Target cell of direction number `di` from cell `idx` (bounds + mask). -/
def Params.target (P : Params) (idx di : ℕ) : Option (ℕ × ℚ) :=
  match P.directions.get? di with
  | none => none
  | some (dr, dc, δ) =>
    let r : ℤ := (idx / P.cols : ℕ)
    let c : ℤ := (idx % P.cols : ℕ)
    let nr := r + dr
    let nc := c + dc
    if 0 ≤ nr ∧ nr < P.rows ∧ 0 ≤ nc ∧ nc < P.cols ∧
        P.mask (Int.toNat nc) (Int.toNat nr) then
      some ((nr * P.cols + nc).toNat, δ)
    else none

/-- Squared pixel distance from the start point to the centre of cell
`idx` (the `dx*dx + dy*dy` of the hybrid rule). -/
def centerDistSq (P : Params) (idx : ℕ) : ℚ :=
  let dx := ((idx % P.cols : ℕ) : ℚ) * P.cellSize + P.cellSize / 2 - P.startPt.x
  let dy := ((idx / P.cols : ℕ) : ℚ) * P.cellSize + P.cellSize / 2 - P.startPt.y
  dx ^ 2 + dy ^ 2

/-- The hybrid-rule decision `newDist / max(0.01, directDist) < 1.1`, decided
exactly: `directDist = √dsqPx / ppm`, and `max` resolves to the clamp iff
`dsqPx·10⁴ ≤ ppm²`. -/
def useEuclid (newDist dsqPx ppm : ℚ) : Bool :=
  if dsqPx * 10000 ≤ ppm ^ 2 then decide (newDist < 11 / 1000)
  else decide ((newDist * ppm * 10) ^ 2 < 121 * dsqPx)

/-- Ghost record of one relaxation: target cell, accumulated path distance,
squared pixel distance to the cell centre, and whether the hybrid rule chose
the Euclidean distance. -/
structure TraceRec where
  idx : ℕ
  newDist : ℚ
  dsqPx : ℚ
  usedEuclid : Bool
  deriving DecidableEq, Repr

/-- Solver state: signal and animation-distance grids, the three state
arrays (`totalLossState` with `none = Infinity`, `wallLossState`,
`distState`), the binary heap and the ghost trace. -/
structure AState where
  signal : List LV
  dist : List (Option ℚ)
  totalLoss : List (Option LV)
  wallLoss : List ℚ
  distState : List ℚ
  heap : List (ℕ × LV)
  trace : List TraceRec

/-- The total loss of one candidate:
`35·log₁₀(max(0.1, effectiveDist)) + 20·log₁₀(5000) − 27.55 + newWallLoss`,
with `effectiveDist` chosen by the hybrid rule (the four branches resolve
`max(0.1, ·)` exactly: `√dsqPx/ppm ≤ 0.1 ⟺ dsqPx·100 ≤ ppm²`). -/
def candidateLoss (P : Params) (newIdx : ℕ) (newWallLoss newDist : ℚ) : LV :=
  let dsq := centerDistSq P newIdx
  let mD : ℚ :=
    if useEuclid newDist dsq P.ppm then
      if dsq * 100 ≤ P.ppm ^ 2 then ((1 : ℚ) / 10) ^ 70 else (dsq / P.ppm ^ 2) ^ 35
    else
      if newDist ≤ 1 / 10 then ((1 : ℚ) / 10) ^ 70 else newDist ^ 70
  ⟨-(2755 / 100) + newWallLoss, mD * (5000 : ℚ) ^ 40⟩

/-- Attempt one neighbour relaxation from popped cell `idx` with captured
wall loss and path distance. -/
def relaxA (P : Params) (idx : ℕ) (curWL curD : ℚ) (s : AState) (di : ℕ) : AState :=
  match P.target idx di with
  | none => s
  | some (newIdx, δ) =>
    let attn := P.att.getD newIdx 0
    let newWallLoss := curWL + attn * δ
    let newDist := curD + δ
    let safeDist := max (1 / 10) newDist
    let newTotal := candidateLoss P newIdx newWallLoss newDist
    let improve :=
      match s.totalLoss.getD newIdx none with
      | none => true
      | some old => LV.blt newTotal old
    if improve then
      { signal := s.signal.set newIdx ⟨P.startSignal - newTotal.a, newTotal.m⁻¹⟩
        dist := s.dist.set newIdx (some safeDist)
        totalLoss := s.totalLoss.set newIdx (some newTotal)
        wallLoss := s.wallLoss.set newIdx newWallLoss
        distState := s.distState.set newIdx newDist
        heap := pqEnqueue s.heap (newIdx, newTotal)
        trace := s.trace ++
          [⟨newIdx, newDist, centerDistSq P newIdx, useEuclid newDist (centerDistSq P newIdx) P.ppm⟩] }
    else s

/-- One iteration of the pop loop.  The source's stale-entry check
`currentTotalLoss > totalLossState[currentIdx]` compares a value with itself
(read twice from the same slot) and never fires, so it is omitted; the
`currentSignal <= -120` gate is kept. -/
def runStepA (P : Params) (s : AState) : AState :=
  match pqDequeue s.heap with
  | none => s
  | some (idx, heap') =>
    let s' : AState := { s with heap := heap' }
    let curWL := s'.wallLoss.getD idx 0
    let curD := s'.distState.getD idx 0
    let curSig := s'.signal.getD idx LV.floor
    if ! LV.blt LV.floor curSig then s'
    else (List.range 8).foldl (relaxA P idx curWL curD) s'

def runA (P : Params) : ℕ → AState → AState
  | 0, s => s
  | fuel + 1, s =>
    match s.heap with
    | [] => s
    | _ => runA P fuel (runStepA P s)

def Params.startCol (P : Params) : ℤ := ⌊P.startPt.x / P.cellSize⌋

def Params.startRow (P : Params) : ℤ := ⌊P.startPt.y / P.cellSize⌋

def Params.inBounds (P : Params) : Prop :=
  0 ≤ P.startCol ∧ P.startCol < P.cols ∧ 0 ≤ P.startRow ∧ P.startRow < P.rows

instance (P : Params) : Decidable P.inBounds := by
  unfold Params.inBounds; infer_instance

def Params.startIdx (P : Params) : ℕ := (P.startRow * P.cols + P.startCol).toNat

/-- State before the loop: `signalGrid` at −120 with the source at
`startSignal`, `distGrid` at `Infinity` with the source at 0, the three
state arrays seeded at the source (`Float32Array` zero-fill for
`wallLossState`/`distState`), `pq.enqueue(startIdx, 0)`. -/
def initStateA (P : Params) : AState :=
  let size := P.cols * P.rows
  { signal := (List.replicate size LV.floor).set P.startIdx ⟨P.startSignal, 1⟩
    dist := (List.replicate size (none : Option ℚ)).set P.startIdx (some 0)
    totalLoss := (List.replicate size (none : Option LV)).set P.startIdx (some ⟨0, 1⟩)
    wallLoss := List.replicate size (0 : ℚ)
    distState := List.replicate size (0 : ℚ)
    heap := [(P.startIdx, ⟨0, 1⟩)]
    trace := [] }

def runDijkstraA (P : Params) (fuel : ℕ) : AState :=
  if P.inBounds then runA P fuel (initStateA P)
  else
    { signal := List.replicate (P.cols * P.rows) LV.floor
      dist := List.replicate (P.cols * P.rows) (none : Option ℚ)
      totalLoss := List.replicate (P.cols * P.rows) (none : Option LV)
      wallLoss := List.replicate (P.cols * P.rows) (0 : ℚ)
      distState := List.replicate (P.cols * P.rows) (0 : ℚ)
      heap := []
      trace := [] }

/-- The per-relaxation invariant of C2: all recorded path distances are
nonnegative, and every trace record's `usedEuclid` flag agrees with the
real-valued hybrid test at its recorded data. -/
def TraceOK (P : Params) (s : AState) : Prop :=
  (∀ i, 0 ≤ s.distState.getD i 0) ∧
  ∀ rec ∈ s.trace, 0 ≤ rec.newDist ∧ rec.dsqPx = centerDistSq P rec.idx ∧
    (rec.usedEuclid = true ↔
      (rec.newDist : ℝ) < 11 / 10 *
        max (1 / 100) (Real.sqrt ((rec.dsqPx : ℚ) : ℝ) / ((P.ppm : ℚ) : ℝ)))

/-- The C2 counterexample scene: a 2×1 grid of 0.4 px cells at 40 px/m (so
one grid step is 0.01 m), emitter at (0.35, 0.2). -/
def c2P : Params :=
  { att := [0, 0], cols := 2, rows := 1, cellSize := 2 / 5, ppm := 40,
    startPt := ⟨7 / 20, 1 / 5⟩, startSignal := 20, mask := fun _ _ => true }

/-! #### Reflections and the composite heat map -/

/-- Squared distance from a point to a wall segment (the sort key used to
pick the 6 closest metal walls). -/
def pointSegDistSq (ap : Pt) (w : Wall) : ℚ :=
  let A := w.start.x - ap.x
  let B := w.start.y - ap.y
  let C := w.«end».x - w.start.x
  let D := w.«end».y - w.start.y
  let dot := A * C + B * D
  let lenSq := C * C + D * D
  let param : ℚ := if lenSq ≠ 0 then -dot / lenSq else -1
  let xx := if param < 0 then w.start.x
    else if param > 1 then w.«end».x else w.start.x + param * C
  let yy := if param < 0 then w.start.y
    else if param > 1 then w.«end».y else w.start.y + param * D
  (ap.x - xx) ^ 2 + (ap.y - yy) ^ 2

/-- Stable insertion step for the ascending sort by `distSq`
(`Array.prototype.sort` is stable). -/
def insertByDist (x : Wall × ℚ) : List (Wall × ℚ) → List (Wall × ℚ)
  | [] => [x]
  | y :: ys => if x.2 < y.2 then x :: y :: ys else y :: insertByDist x ys

def sortByDist (l : List (Wall × ℚ)) : List (Wall × ℚ) := l.foldr insertByDist []

/-- The up-to-6 metal walls closest to the emitter. -/
def metalWallsSorted (ap : Pt) (walls : List Wall) : List Wall :=
  ((((walls.filter (fun w => w.material = .metal)).map
      (fun w => (w, pointSegDistSq ap w))) |> sortByDist).take 6).map Prod.fst

/-- Per-cell max composition of two `(signalGrid, distGrid)` fields over
cells `0 … n−1` (`if signal[i] > final[i]` take the contributor). -/
def mergeGrids (n : ℕ) (m r : List LV × List (Option ℚ)) :
    List LV × List (Option ℚ) :=
  ((List.range n).map fun i =>
      if LV.blt (m.1.getD i LV.floor) (r.1.getD i LV.floor) then r.1.getD i LV.floor
      else m.1.getD i LV.floor,
   (List.range n).map fun i =>
      if LV.blt (m.1.getD i LV.floor) (r.1.getD i LV.floor) then r.2.getD i none
      else m.2.getD i none)

def mainParamsA (ap : WE.AccessPoint) (walls : List Wall) (doors : List Door)
    (w h cs ppm : ℚ) : Params :=
  { att := buildAttenuationGrid walls doors w h cs ppm
    cols := Int.toNat ⌈w / cs⌉, rows := Int.toNat ⌈h / cs⌉
    cellSize := cs, ppm := ppm
    startPt := ⟨ap.x, ap.y⟩, startSignal := ap.txPower
    mask := fun _ _ => true }

def apSideA (ap : WE.AccessPoint) (wall : Wall) : ℤ :=
  getSideOfLine wall.start wall.«end» ⟨ap.x, ap.y⟩

/-- Parameters of a reflection run: mirrored virtual source, grid rebuilt
without the mirror wall, relaxation masked to the emitter's side (the mask
samples the cell corner `(c·cellSize, r·cellSize)`). -/
def reflParamsA (ap : WE.AccessPoint) (wall : Wall) (walls : List Wall)
    (doors : List Door) (w h cs ppm : ℚ) : Params :=
  { att := buildAttenuationGrid (walls.filter (fun w2 => w2.id ≠ wall.id)) doors w h cs ppm
    cols := Int.toNat ⌈w / cs⌉, rows := Int.toNat ⌈h / cs⌉
    cellSize := cs, ppm := ppm
    startPt := mirrorPointAcrossLine ⟨ap.x, ap.y⟩ wall.start wall.«end»
    startSignal := ap.txPower
    mask := fun c r => decide
      (getSideOfLine wall.start wall.«end» ⟨(c : ℚ) * cs, (r : ℚ) * cs⟩ = apSideA ap wall) }

/-- `propagateWave` (revision 1): the main run max-merged with the up-to-6
metal-wall reflection runs. -/
def propagateWaveA (ap : WE.AccessPoint) (walls : List Wall) (doors : List Door)
    (w h cs ppm : ℚ) (fuel : ℕ) : List LV × List (Option ℚ) :=
  let main := runDijkstraA (mainParamsA ap walls doors w h cs ppm) fuel
  (metalWallsSorted ⟨ap.x, ap.y⟩ walls).foldl (fun acc wall =>
    let refl := runDijkstraA (reflParamsA ap wall walls doors w h cs ppm) fuel
    mergeGrids acc.1.length acc (refl.signal, refl.dist)) (main.signal, main.dist)

/-- `computeCompositeHeatmap` (revision 1): fold the per-emitter fields into
the −120-initialised final grids by per-cell max. -/
def computeCompositeHeatmapA (aps : List WE.AccessPoint) (walls : List Wall)
    (doors : List Door) (w h cs ppm : ℚ) (fuel : ℕ) :
    List LV × List (Option ℚ) :=
  let cols := Int.toNat ⌈w / cs⌉
  let rows := Int.toNat ⌈h / cs⌉
  let size := cols * rows
  aps.foldl (fun acc ap => mergeGrids size acc (propagateWaveA ap walls doors w h cs ppm fuel))
    (List.replicate size LV.floor, List.replicate size (none : Option ℚ))

/-- All signal representations the solver stores are `Pos`. -/
def PosSig (s : AState) : Prop := ∀ i, (s.signal.getD i LV.floor).Pos

/-- Pointwise positivity of a field (its whole signal list). -/
def PosF (f : List LV × List (Option ℚ)) : Prop :=
  ∀ i, (f.1.getD i LV.floor).Pos

end WA

namespace WB

/-! ### The second worker revision: directional solver, cache, `onmessage`

The directional-antenna logic involves `Math.atan2` and π, so this revision
is embedded over `ℝ` (noncomputably); the cache determinism statement (C9)
needs no evaluation, only equational reasoning. -/


/-- An access point as received by the worker (revision 2). -/
structure ApB where
  id : String
  x : ℚ
  y : ℚ
  txPower : ℚ
  isDirectional : Bool
  azimuth : ℚ
  beamwidth : ℚ
  frontToBackRatio : ℚ

/-- The projection of an AP that `getApHash` serialises: `JSON.stringify` of
a fixed-shape record is injective in the record's values, so hash equality
is modelled as equality of this tuple (the `id` is *not* part of it). -/
structure ApProj where
  x : ℚ
  y : ℚ
  txPower : ℚ
  isDirectional : Bool
  azimuth : ℚ
  beamwidth : ℚ
  frontToBackRatio : ℚ
  deriving DecidableEq

def ApB.proj (ap : ApB) : ApProj :=
  ⟨ap.x, ap.y, ap.txPower, ap.isDirectional, ap.azimuth, ap.beamwidth, ap.frontToBackRatio⟩

/-- The environment of a request.  `getEnvironmentHash` serialises the
lengths, the dimension tuple and *every* field of every wall and door, so
hash equality is modelled as equality of this whole structure. -/
structure EnvB where
  walls : List Wall
  doors : List Door
  width : ℚ
  height : ℚ
  cellSize : ℚ
  ppm : ℚ
  deriving DecidableEq

/-- Solver parameters (revision 2): the antenna properties ride along;
absent JS fields (`|| 0`, `|| 360`, `|| 20` defaults) are modelled by the
value 0 which the solver maps to the same defaults. -/
structure ParamsB where
  att : List ℚ
  cols : ℕ
  rows : ℕ
  cellSize : ℚ
  ppm : ℚ
  startPt : Pt
  startSignal : ℚ
  mask : ℕ → ℕ → Bool
  isDirectional : Bool
  azimuth : ℚ
  beamwidth : ℚ
  frontToBackRatio : ℚ

def ParamsB.directions (P : ParamsB) : List (ℤ × ℤ × ℚ) :=
  let step := P.cellSize / P.ppm
  let diag := step * (14142 / 10000)
  [(-1, 0, step), (1, 0, step), (0, -1, step), (0, 1, step),
   (-1, -1, diag), (-1, 1, diag), (1, -1, diag), (1, 1, diag)]

def ParamsB.target (P : ParamsB) (idx di : ℕ) : Option (ℕ × ℚ) :=
  match P.directions.get? di with
  | none => none
  | some (dr, dc, δ) =>
    let r : ℤ := (idx / P.cols : ℕ)
    let c : ℤ := (idx % P.cols : ℕ)
    let nr := r + dr
    let nc := c + dc
    if 0 ≤ nr ∧ nr < P.rows ∧ 0 ≤ nc ∧ nc < P.cols ∧
        P.mask (Int.toNat nc) (Int.toNat nr) then
      some ((nr * P.cols + nc).toNat, δ)
    else none

def ParamsB.startCol (P : ParamsB) : ℤ := ⌊P.startPt.x / P.cellSize⌋

def ParamsB.startRow (P : ParamsB) : ℤ := ⌊P.startPt.y / P.cellSize⌋

def ParamsB.inBounds (P : ParamsB) : Prop :=
  0 ≤ P.startCol ∧ P.startCol < P.cols ∧ 0 ≤ P.startRow ∧ P.startRow < P.rows

def ParamsB.startIdx (P : ParamsB) : ℕ := (P.startRow * P.cols + P.startCol).toNat

/-- Solver state over `ℝ` (`none = Infinity`). -/
structure BState where
  signal : List ℝ
  dist : List (Option ℝ)
  totalLoss : List (Option ℝ)
  wallLoss : List ℝ
  distState : List ℝ
  heap : List (ℕ × ℝ)

/-- `Math.atan2 y x`, via the complex argument (both have range `(−π, π]`
and agree on all nonzero inputs; `atan2 0 0 = 0 = arg 0`). -/
noncomputable def atan2 (y x : ℝ) : ℝ := Complex.arg ⟨x, y⟩

section
attribute [local instance] Classical.propDecidable


noncomputable def bubbleUpB : ℕ → List (ℕ × ℝ) → ℕ → List (ℕ × ℝ)
  | 0, h, _ => h
  | fuel + 1, h, idx =>
    if idx = 0 then h
    else
      let parentIdx := (idx - 1) / 2
      let element := h.getD idx (0, 0)
      let parent := h.getD parentIdx (0, 0)
      if element.2 < parent.2 then
        bubbleUpB fuel ((h.set parentIdx element).set idx parent) parentIdx
      else h

noncomputable def pqEnqueueB (h : List (ℕ × ℝ)) (e : ℕ × ℝ) : List (ℕ × ℝ) :=
  let h' := h ++ [e]
  bubbleUpB h'.length h' (h'.length - 1)

noncomputable def sinkDownB : ℕ → List (ℕ × ℝ) → ℕ → List (ℕ × ℝ)
  | 0, h, _ => h
  | fuel + 1, h, idx =>
    let length := h.length
    let element := h.getD idx (0, 0)
    let l := 2 * idx + 1
    let r := 2 * idx + 2
    let swapL : Option ℕ :=
      if l < length ∧ (h.getD l (0, 0)).2 < element.2 then some l else none
    let swap : Option ℕ :=
      if r < length then
        match swapL with
        | none => if (h.getD r (0, 0)).2 < element.2 then some r else none
        | some li =>
          if (h.getD r (0, 0)).2 < (h.getD li (0, 0)).2 then some r else swapL
      else swapL
    match swap with
    | none => h
    | some si => sinkDownB fuel ((h.set idx (h.getD si (0, 0))).set si element) si

noncomputable def pqDequeueB (h : List (ℕ × ℝ)) : Option (ℕ × List (ℕ × ℝ)) :=
  match h with
  | [] => none
  | min :: _ =>
    let popped := h.dropLast
    if popped.isEmpty then some (min.1, [])
    else
      let endE := h.getD (h.length - 1) (0, 0)
      some (min.1, sinkDownB popped.length (popped.set 0 endE) 0)

/-- One neighbour relaxation of the revision-2 solver, with the hybrid
effective distance and the directional-antenna step attenuation. -/
noncomputable def relaxB (P : ParamsB) (idx : ℕ) (curWL curD : ℝ)
    (s : BState) (di : ℕ) : BState :=
  match P.target idx di with
  | none => s
  | some (newIdx, δ) =>
    let attn : ℚ := P.att.getD newIdx 0
    let newWallLoss := curWL + (attn : ℝ) * (δ : ℝ)
    let newDist := curD + (δ : ℝ)
    let safeDist := max (1 / 10 : ℝ) newDist
    let dxq : ℚ := ((newIdx % P.cols : ℕ) : ℚ) * P.cellSize + P.cellSize / 2 - P.startPt.x
    let dyq : ℚ := ((newIdx / P.cols : ℕ) : ℚ) * P.cellSize + P.cellSize / 2 - P.startPt.y
    let directDist := Real.sqrt ((dxq ^ 2 + dyq ^ 2 : ℚ) : ℝ) / ((P.ppm : ℚ) : ℝ)
    let ratio := newDist / max (1 / 100 : ℝ) directDist
    let effectiveDist := if ratio < 11 / 10 then directDist else newDist
    let fspl0 := 35 * Real.logb 10 (max (1 / 10 : ℝ) effectiveDist) +
      (20 * Real.logb 10 5000 - 2755 / 100)
    let fspl :=
      if P.isDirectional then
        let azimuthRad : ℝ := ((P.azimuth : ℚ) - 90 : ℚ) * (Real.pi / 180)
        let halfBeamRad : ℝ :=
          (((if P.beamwidth = 0 then (360 : ℚ) else P.beamwidth) : ℚ) / 2 : ℝ) * (Real.pi / 180)
        let f2b : ℝ := ((if P.frontToBackRatio = 0 then (20 : ℚ) else P.frontToBackRatio) : ℚ)
        let angleToTarget := atan2 (dyq : ℝ) (dxq : ℝ)
        let angleDiff0 := |angleToTarget - azimuthRad|
        let angleDiff := if angleDiff0 > Real.pi then 2 * Real.pi - angleDiff0 else angleDiff0
        if angleDiff > halfBeamRad then fspl0 + f2b else fspl0
      else fspl0
    let newTotal := fspl + newWallLoss
    let improve : Prop :=
      match s.totalLoss.getD newIdx none with
      | none => True
      | some old => newTotal < old
    if improve then
      { signal := s.signal.set newIdx (((P.startSignal : ℚ) : ℝ) - newTotal)
        dist := s.dist.set newIdx (some safeDist)
        totalLoss := s.totalLoss.set newIdx (some newTotal)
        wallLoss := s.wallLoss.set newIdx newWallLoss
        distState := s.distState.set newIdx newDist
        heap := pqEnqueueB s.heap (newIdx, newTotal) }
    else s

noncomputable def runStepB (P : ParamsB) (s : BState) : BState :=
  match pqDequeueB s.heap with
  | none => s
  | some (idx, heap') =>
    let s' : BState := { s with heap := heap' }
    let curWL := s'.wallLoss.getD idx 0
    let curD := s'.distState.getD idx 0
    let curSig := s'.signal.getD idx (-120)
    if curSig ≤ -120 then s'
    else (List.range 8).foldl (relaxB P idx curWL curD) s'

noncomputable def runB (P : ParamsB) : ℕ → BState → BState
  | 0, s => s
  | fuel + 1, s =>
    match s.heap with
    | [] => s
    | _ => runB P fuel (runStepB P s)

noncomputable def initStateB (P : ParamsB) : BState :=
  let size := P.cols * P.rows
  { signal := (List.replicate size (-120 : ℝ)).set P.startIdx ((P.startSignal : ℚ) : ℝ)
    dist := (List.replicate size (none : Option ℝ)).set P.startIdx (some 0)
    totalLoss := (List.replicate size (none : Option ℝ)).set P.startIdx (some 0)
    wallLoss := List.replicate size (0 : ℝ)
    distState := List.replicate size (0 : ℝ)
    heap := [(P.startIdx, 0)] }

noncomputable def runDijkstraB (P : ParamsB) (fuel : ℕ) : BState :=
  if P.inBounds then runB P fuel (initStateB P)
  else
    { signal := List.replicate (P.cols * P.rows) (-120 : ℝ)
      dist := List.replicate (P.cols * P.rows) (none : Option ℝ)
      totalLoss := List.replicate (P.cols * P.rows) (none : Option ℝ)
      wallLoss := List.replicate (P.cols * P.rows) (0 : ℝ)
      distState := List.replicate (P.cols * P.rows) (0 : ℝ)
      heap := [] }

/-- Per-cell max composition over `ℝ` (`if signal[i] > final[i]`). -/
noncomputable def mergeGridsB (n : ℕ) (m r : List ℝ × List (Option ℝ)) :
    List ℝ × List (Option ℝ) :=
  ((List.range n).map fun i =>
      if m.1.getD i (-120) < r.1.getD i (-120) then r.1.getD i (-120)
      else m.1.getD i (-120),
   (List.range n).map fun i =>
      if m.1.getD i (-120) < r.1.getD i (-120) then r.2.getD i none
      else m.2.getD i none)

noncomputable def mainParamsB (proj : ApProj) (env : EnvB) : ParamsB :=
  { att := buildAttenuationGrid env.walls env.doors env.width env.height env.cellSize env.ppm
    cols := Int.toNat ⌈env.width / env.cellSize⌉
    rows := Int.toNat ⌈env.height / env.cellSize⌉
    cellSize := env.cellSize, ppm := env.ppm
    startPt := ⟨proj.x, proj.y⟩, startSignal := proj.txPower
    mask := fun _ _ => true
    isDirectional := proj.isDirectional
    azimuth := proj.azimuth, beamwidth := proj.beamwidth
    frontToBackRatio := proj.frontToBackRatio }

/-- Reflection run: mirrored source, wall excluded from the rebuilt grid,
same-side mask (cell corner), forced omni (`{ isDirectional: false }`). -/
noncomputable def reflParamsB (proj : ApProj) (wall : Wall) (env : EnvB) : ParamsB :=
  { att := buildAttenuationGrid (env.walls.filter (fun w2 => w2.id ≠ wall.id))
      env.doors env.width env.height env.cellSize env.ppm
    cols := Int.toNat ⌈env.width / env.cellSize⌉
    rows := Int.toNat ⌈env.height / env.cellSize⌉
    cellSize := env.cellSize, ppm := env.ppm
    startPt := mirrorPointAcrossLine ⟨proj.x, proj.y⟩ wall.start wall.«end»
    startSignal := proj.txPower
    mask := fun c r => decide
      (getSideOfLine wall.start wall.«end» ⟨(c : ℚ) * env.cellSize, (r : ℚ) * env.cellSize⟩ =
        getSideOfLine wall.start wall.«end» ⟨proj.x, proj.y⟩)
    isDirectional := false
    azimuth := 0, beamwidth := 0, frontToBackRatio := 0 }

/-- `propagateWave` (revision 2).  It reads only the seven hashed AP
properties, never `ap.id`, so it is defined on the projection. -/
noncomputable def propagateWaveB (proj : ApProj) (env : EnvB) (fuel : ℕ) :
    List ℝ × List (Option ℝ) :=
  let main := runDijkstraB (mainParamsB proj env) fuel
  (WA.metalWallsSorted ⟨proj.x, proj.y⟩ env.walls).foldl (fun acc wall =>
    let refl := runDijkstraB (reflParamsB proj wall env) fuel
    mergeGridsB acc.1.length acc (refl.signal, refl.dist)) (main.signal, main.dist)

end


/-! #### The per-emitter cache of `onmessage` -/

/-- `Map.get`. -/
def cacheGet {α : Type} : List (String × α) → String → Option α
  | [], _ => none
  | (k', v') :: rest, k => if k' = k then some v' else cacheGet rest k

/-- `Map.set`: replace in place or append. -/
def cacheSet {α : Type} : List (String × α) → String → α → List (String × α)
  | [], k, v => [(k, v)]
  | (k', v') :: rest, k, v =>
    if k' = k then (k, v) :: rest else (k', v') :: cacheSet rest k v

/-- Worker-global mutable state: `apCache` (id ↦ (hash, fields)) and
`lastEnvironmentHash` (`none` models the initial `""`). -/
structure WorkerCache where
  apCache : List (String × (ApProj × (List ℝ × List (Option ℝ))))
  lastEnv : Option EnvB

def initialCache : WorkerCache := ⟨[], none⟩

structure MsgB where
  aps : List ApB
  env : EnvB

/-- Body of the `aps.forEach` loop of `onmessage`: look up the cache,
recompute on miss or stale hash, merge by per-cell max. -/
noncomputable def processAp (fuel : ℕ) (env : EnvB) (size : ℕ)
    (acc : (List ℝ × List (Option ℝ)) × List (String × (ApProj × (List ℝ × List (Option ℝ)))))
    (ap : ApB) :
    (List ℝ × List (Option ℝ)) × List (String × (ApProj × (List ℝ × List (Option ℝ)))) :=
  match cacheGet acc.2 ap.id with
  | some (h, f0) =>
    if h = ap.proj then (mergeGridsB size acc.1 f0, acc.2)
    else
      let f1 := propagateWaveB ap.proj env fuel
      (mergeGridsB size acc.1 f1, cacheSet acc.2 ap.id (ap.proj, f1))
  | none =>
    let f1 := propagateWaveB ap.proj env fuel
    (mergeGridsB size acc.1 f1, cacheSet acc.2 ap.id (ap.proj, f1))

/-- The non-WARMUP branch of `onmessage`: invalidate the cache when the
environment hash changed, then fold the per-AP fields (cached or fresh)
into the −120-initialised final grids. -/
noncomputable def handleMessage (fuel : ℕ) (st : WorkerCache) (msg : MsgB) :
    (List ℝ × List (Option ℝ)) × WorkerCache :=
  let cache0 := if st.lastEnv = some msg.env then st.apCache else []
  let cols := Int.toNat ⌈msg.env.width / msg.env.cellSize⌉
  let rows := Int.toNat ⌈msg.env.height / msg.env.cellSize⌉
  let size := cols * rows
  let fin0 : List ℝ × List (Option ℝ) :=
    (List.replicate size (-120 : ℝ), List.replicate size (none : Option ℝ))
  let res := msg.aps.foldl (processAp fuel msg.env size) (fin0, cache0)
  (res.1, ⟨res.2, some msg.env⟩)

/-- Every cache entry holds exactly the field `propagateWave` computes for
its recorded hash under the given environment. -/
def CacheGood (fuel : ℕ) (env : EnvB)
    (c : List (String × (ApProj × (List ℝ × List (Option ℝ))))) : Prop :=
  ∀ e ∈ c, e.2.2 = propagateWaveB e.2.1 env fuel

/-- Reachable worker states: fresh, or consistent with some environment. -/
def ValidCache (fuel : ℕ) (st : WorkerCache) : Prop :=
  (st.lastEnv = none ∧ st.apCache = []) ∨
  ∃ env0, st.lastEnv = some env0 ∧ CacheGood fuel env0 st.apCache

/-- The witness scene for C9: one omni emitter in an empty 20×10 room, and a
worker state whose cache already holds that emitter's field. -/
def c9env : EnvB := ⟨[], [], 20, 10, 10, 40⟩

def c9proj : ApProj := ⟨5, 5, 20, false, 0, 0, 0⟩

def c9ap : ApB := ⟨"ap1", 5, 5, 20, false, 0, 0, 0⟩

noncomputable def c9state : WorkerCache :=
  ⟨[("ap1", (c9proj, propagateWaveB c9proj c9env 4))], some c9env⟩

end WB

namespace WE

/-- The wall and door the C8 witness instantiates the theorem at. -/
def c8wall : Wall := ⟨"w8", ⟨0, 0⟩, ⟨30, 40⟩, .drywall, 12⟩

def c8door : Door := ⟨"d8", "w8", 1 / 2, 10⟩

end WE

/-! ### Segment intersection (`src/utils/geometry.ts`) -/

/-- `getIntersection(p0, p1, p2, p3)`.  The source divides by
`(-s2_x * s1_y + s1_x * s2_y)` without a guard; when that denominator is 0
the IEEE results `s`, `t` are `NaN` or `±∞`, and every such value fails the
`s >= 0 && s <= 1 && t >= 0 && t <= 1` test (`NaN` compares false, `+∞ > 1`,
`-∞ < 0`), so the function returns `null`; the embedding makes that branch
explicit. -/
def getIntersection (p0 p1 p2 p3 : Pt) : Option Pt :=
  let s1x := p1.x - p0.x
  let s1y := p1.y - p0.y
  let s2x := p3.x - p2.x
  let s2y := p3.y - p2.y
  let denom := -s2x * s1y + s1x * s2y
  if denom = 0 then none
  else
    let s := (-s1y * (p0.x - p2.x) + s1x * (p0.y - p2.y)) / denom
    let t := (s2x * (p0.y - p2.y) - s2y * (p0.x - p2.x)) / denom
    if 0 ≤ s ∧ s ≤ 1 ∧ 0 ≤ t ∧ t ≤ 1 then
      some ⟨p0.x + t * s1x, p0.y + t * s1y⟩
    else none

theorem ipow_eq (p : ℤ) (k : ℕ) : ipow p k = p ^ k := by
  unfold ipow
  have habs : ((Nat.pow p.natAbs k : ℕ) : ℤ) = (p.natAbs : ℤ) ^ k := by
    rw [Nat.pow_eq]
    push_cast
    rfl
  by_cases hp : p < 0
  · have hp2 : p = -(p.natAbs : ℤ) := by omega
    have hsplit : p ^ k = (-1) ^ k * (p.natAbs : ℤ) ^ k := by
      conv_lhs => rw [hp2]
      rw [neg_pow]
    by_cases hk : k % 2 = 1
    · simp only [hp, hk, and_self, if_true]
      have : Odd k := Nat.odd_iff.mpr hk
      rw [habs, hsplit, this.neg_one_pow]
      ring
    · simp only [hp, hk, and_false, if_false]
      have : Even k := Nat.even_iff.mpr (by omega)
      rw [habs, hsplit, this.neg_one_pow]
      ring
  · simp only [hp, false_and, if_false]
    have hval : (p.natAbs : ℤ) = p := by omega
    rw [habs, hval]

namespace LV

@[simp] theorem val_floor : val floor = -120 := by
  simp [val, floor, Real.logb_one]

@[simp] theorem val_mk_one (a : ℚ) : val ⟨a, 1⟩ = a := by
  simp [val, Real.logb_one]

/-- Cross-multiplied integer form of `a^k < b^k · 10^n` for positive
rationals. -/
theorem qpow_cross (a b : ℚ) (k : ℕ) (n : ℤ) :
    (a ^ k < b ^ k * (10 : ℚ) ^ n ↔
      ipow a.num k * ((Nat.pow b.den k : ℕ) : ℤ) * ((Nat.pow 10 (Int.toNat (-n)) : ℕ) : ℤ)
        < ipow b.num k * ((Nat.pow a.den k : ℕ) : ℤ) * ((Nat.pow 10 (Int.toNat n) : ℕ) : ℤ)) := by
  have hda : (0 : ℚ) < (a.den : ℚ) := by exact_mod_cast a.pos
  have hdb : (0 : ℚ) < (b.den : ℚ) := by exact_mod_cast b.pos
  have hmula : a * (a.den : ℚ) = (a.num : ℚ) :=
    calc a * (a.den : ℚ) = (a.num : ℚ) / (a.den : ℚ) * (a.den : ℚ) := by
          rw [Rat.num_div_den a]
      _ = (a.num : ℚ) := div_mul_cancel₀ _ (ne_of_gt hda)
  have hmulb : b * (b.den : ℚ) = (b.num : ℚ) :=
    calc b * (b.den : ℚ) = (b.num : ℚ) / (b.den : ℚ) * (b.den : ℚ) := by
          rw [Rat.num_div_den b]
      _ = (b.num : ℚ) := div_mul_cancel₀ _ (ne_of_gt hdb)
  set c : ℚ := (a.den : ℚ) ^ k * (b.den : ℚ) ^ k * (10 : ℚ) ^ (Int.toNat (-n)) with hc
  have hcpos : 0 < c := by positivity
  have hiff : a ^ k < b ^ k * (10 : ℚ) ^ n ↔ a ^ k * c < b ^ k * (10 : ℚ) ^ n * c :=
    (mul_lt_mul_right hcpos).symm
  have hL : a ^ k * c = (a.num : ℚ) ^ k * (b.den : ℚ) ^ k * (10 : ℚ) ^ (Int.toNat (-n)) := by
    rw [hc, ← hmula]
    ring
  have hzpow : (10 : ℚ) ^ n * (10 : ℚ) ^ ((Int.toNat (-n) : ℤ)) = (10 : ℚ) ^ ((Int.toNat n : ℤ)) := by
    rw [← zpow_add₀ (by norm_num : (10 : ℚ) ≠ 0)]
    congr 1
    omega
  have hR : b ^ k * (10 : ℚ) ^ n * c =
      (b.num : ℚ) ^ k * (a.den : ℚ) ^ k * (10 : ℚ) ^ (Int.toNat n) := by
    rw [hc, ← hmulb]
    have h1 : (10 : ℚ) ^ (Int.toNat (-n)) = (10 : ℚ) ^ ((Int.toNat (-n) : ℤ)) := by
      rw [zpow_natCast]
    have h2 : (10 : ℚ) ^ (Int.toNat n) = (10 : ℚ) ^ ((Int.toNat n : ℤ)) := by
      rw [zpow_natCast]
    rw [h1, h2, ← hzpow]
    ring
  rw [hiff, hL, hR]
  have hcastL : (a.num : ℚ) ^ k * (b.den : ℚ) ^ k * (10 : ℚ) ^ (Int.toNat (-n)) =
      ((ipow a.num k * ((Nat.pow b.den k : ℕ) : ℤ) * ((Nat.pow 10 (Int.toNat (-n)) : ℕ) : ℤ) : ℤ) : ℚ) := by
    rw [ipow_eq, Nat.pow_eq, Nat.pow_eq]
    push_cast
    ring
  have hcastR : (b.num : ℚ) ^ k * (a.den : ℚ) ^ k * (10 : ℚ) ^ (Int.toNat n) =
      ((ipow b.num k * ((Nat.pow a.den k : ℕ) : ℤ) * ((Nat.pow 10 (Int.toNat n) : ℕ) : ℤ) : ℤ) : ℚ) := by
    rw [ipow_eq, Nat.pow_eq, Nat.pow_eq]
    push_cast
    ring
  rw [hcastL, hcastR]
  exact_mod_cast Iff.rfl

theorem blt_iff {x y : LV} (hx : x.Pos) (hy : y.Pos) :
    blt x y = true ↔ val x < val y := by
  have hx' : (0 : ℝ) < (x.m : ℝ) := by exact_mod_cast hx
  have hy' : (0 : ℝ) < (y.m : ℝ) := by exact_mod_cast hy
  set r : ℚ := 2 * (y.a - x.a) with hr
  have hden : (0 : ℕ) < r.den := r.pos
  have h10 : (1 : ℝ) < 10 := by norm_num
  -- real-level chain
  have step1 : val x < val y ↔ Real.logb 10 (x.m / y.m) < (r : ℝ) := by
    rw [Real.logb_div (ne_of_gt hx') (ne_of_gt hy')]
    unfold val
    push_cast [hr]
    constructor <;> intro h <;> linarith
  have hdivpos : (0 : ℝ) < (x.m : ℝ) / (y.m : ℝ) := div_pos hx' hy'
  have step2 : Real.logb 10 (x.m / y.m) < (r : ℝ) ↔
      ((x.m : ℝ) / y.m) < (10 : ℝ) ^ (r : ℝ) := by
    rw [Real.logb_lt_iff_lt_rpow h10 hdivpos]
  have hrpos : (0 : ℝ) ≤ (10 : ℝ) ^ (r : ℝ) := (Real.rpow_pos_of_pos (by norm_num) _).le
  have step3 : ((x.m : ℝ) / y.m) < (10 : ℝ) ^ (r : ℝ) ↔
      ((x.m : ℝ) / y.m) ^ r.den < ((10 : ℝ) ^ (r : ℝ)) ^ r.den := by
    constructor
    · intro h
      exact pow_lt_pow_left₀ h hdivpos.le (Nat.pos_iff_ne_zero.mp hden)
    · intro h
      by_contra hcon
      push_neg at hcon
      exact absurd (pow_le_pow_left₀ hrpos hcon r.den) (not_le.mpr h)
  have hpowcollapse : ((10 : ℝ) ^ (r : ℝ)) ^ r.den = (10 : ℝ) ^ (r.num : ℤ) := by
    rw [← Real.rpow_natCast ((10 : ℝ) ^ (r : ℝ)) r.den, ← Real.rpow_mul (by norm_num)]
    have : (r : ℝ) * (r.den : ℝ) = (r.num : ℝ) := by
      rw [Rat.cast_def]
      field_simp
    rw [this, Real.rpow_intCast]
  have step4 : ((x.m : ℝ) / y.m) ^ r.den < (10 : ℝ) ^ (r.num : ℤ) ↔
      (x.m : ℝ) ^ r.den < (y.m : ℝ) ^ r.den * (10 : ℝ) ^ (r.num : ℤ) := by
    rw [div_pow, div_lt_iff₀ (pow_pos hy' _)]
    constructor <;> intro h <;> linarith [h]
  have castiff : (x.m : ℝ) ^ r.den < (y.m : ℝ) ^ r.den * (10 : ℝ) ^ (r.num : ℤ) ↔
      x.m ^ r.den < y.m ^ r.den * (10 : ℚ) ^ r.num := by
    rw [← Rat.cast_lt (K := ℝ)]
    push_cast
    rfl
  unfold blt
  simp only [decide_eq_true_iff]
  rw [step1, step2, step3, hpowcollapse, step4, castiff, qpow_cross x.m y.m r.den r.num]

/-- `blt = false` decides `≥` (on positive representations). -/
theorem not_blt_iff {x y : LV} (hx : x.Pos) (hy : y.Pos) :
    blt x y = false ↔ val y ≤ val x := by
  rw [← not_lt, ← blt_iff hx hy]
  cases blt x y <;> simp

end LV

theorem sqrtAux_spec (nn dd : ℕ) : ∀ (fuel s : ℕ),
    (∀ j, j < s → ¬ nn ≤ j ^ 2 * dd) → nn ≤ (s + fuel) ^ 2 * dd →
    nn ≤ (sqrtAux nn dd s fuel) ^ 2 * dd ∧
      ∀ j, j < sqrtAux nn dd s fuel → ¬ nn ≤ j ^ 2 * dd := by
  intro fuel
  induction fuel with
  | zero =>
    intro s hmin hub
    rw [Nat.add_zero] at hub
    exact ⟨hub, hmin⟩
  | succ fuel ih =>
    intro s hmin hub
    simp only [sqrtAux]
    split
    · exact ⟨by assumption, hmin⟩
    · have hmin' : ∀ j, j < s + 1 → ¬ nn ≤ j ^ 2 * dd := by
        intro j hj
        rcases Nat.lt_succ_iff_lt_or_eq.mp hj with hlt | hEq
        · exact hmin j hlt
        · subst hEq; assumption
      have hub' : nn ≤ (s + 1 + fuel) ^ 2 * dd := by
        have harith : s + 1 + fuel = s + (fuel + 1) := by omega
        rw [harith]
        exact hub
      exact ih (s + 1) hmin' hub'

/-- `ceilSqrtQ q` is exactly `⌈√q⌉`: it dominates `q` when squared and is the
least natural to do so. -/
theorem ceilSqrtQ_bounds (q : ℚ) (hq : 0 < q) :
    ((ceilSqrtQ q : ℚ) - 1) ^ 2 < q ∧ q ≤ (ceilSqrtQ q : ℚ) ^ 2 := by
  have hnum : 0 < q.num := Rat.num_pos.mpr hq
  have hne : ¬ q.num ≤ 0 := not_le.mpr hnum
  set n : ℕ := Int.toNat q.num with hn
  set d : ℕ := q.den with hd
  have hval : ceilSqrtQ q = sqrtAux n d 0 n := by
    unfold ceilSqrtQ
    rw [if_neg hne]
  have hdpos : 0 < d := q.pos
  have hn1 : 1 ≤ n := by omega
  have hdQ : (0 : ℚ) < (d : ℚ) := by exact_mod_cast hdpos
  have hnZ : ((n : ℕ) : ℚ) = ((q.num : ℤ) : ℚ) := by
    have h0 : ((n : ℕ) : ℤ) = q.num := by omega
    exact_mod_cast h0
  have key : q = (n : ℚ) / (d : ℚ) := by
    calc q = ((q.num : ℤ) : ℚ) / ((q.den : ℕ) : ℚ) := (Rat.num_div_den q).symm
      _ = (n : ℚ) / (d : ℚ) := by rw [hnZ, hd]
  have hub : n ≤ (0 + n) ^ 2 * d := by
    calc n ≤ n ^ 2 := Nat.le_self_pow two_ne_zero n
      _ = n ^ 2 * 1 := (Nat.mul_one _).symm
      _ ≤ n ^ 2 * d := Nat.mul_le_mul_left _ hdpos
      _ = (0 + n) ^ 2 * d := by rw [Nat.zero_add]
  obtain ⟨hile, hmin⟩ :=
    sqrtAux_spec n d n 0 (fun j hj => absurd hj (Nat.not_lt_zero j)) hub
  set s : ℕ := sqrtAux n d 0 n with hs
  have hs1 : 1 ≤ s := by
    by_contra h0
    push_neg at h0
    have hz : s = 0 := by omega
    rw [hz] at hile
    simp at hile
    omega
  have hqle : q ≤ (s : ℚ) ^ 2 := by
    rw [key, div_le_iff₀ hdQ]
    calc (n : ℚ) ≤ ((s ^ 2 * d : ℕ) : ℚ) := by exact_mod_cast hile
      _ = (s : ℚ) ^ 2 * d := by push_cast; ring
  have hlt : ¬ n ≤ (s - 1) ^ 2 * d := hmin (s - 1) (by omega)
  push_neg at hlt
  have hcast : ((s - 1 : ℕ) : ℚ) = (s : ℚ) - 1 := by
    rw [Nat.cast_sub hs1, Nat.cast_one]
  have hlow : ((s : ℚ) - 1) ^ 2 < q := by
    rw [key, lt_div_iff₀ hdQ]
    have h2 : (((s - 1) ^ 2 * d : ℕ) : ℚ) < (n : ℚ) := by exact_mod_cast hlt
    calc ((s : ℚ) - 1) ^ 2 * d = (((s - 1 : ℕ) : ℚ)) ^ 2 * d := by rw [hcast]
      _ = (((s - 1) ^ 2 * d : ℕ) : ℚ) := by push_cast; ring
      _ < (n : ℚ) := h2
  rw [hval]
  exact ⟨hlow, hqle⟩

theorem leSqrt_iff (a S b : ℚ) (hS : 0 ≤ S) :
    leSqrt a S b = true ↔ (a : ℝ) * Real.sqrt (S : ℚ) ≤ b := by
  have hS' : (0 : ℝ) ≤ (S : ℝ) := by exact_mod_cast hS
  have hsq : Real.sqrt (S : ℝ) ^ 2 = (S : ℝ) := Real.sq_sqrt hS'
  have hsnn : (0 : ℝ) ≤ Real.sqrt (S : ℝ) := Real.sqrt_nonneg _
  unfold leSqrt
  by_cases ha : 0 ≤ a
  · have ha' : (0 : ℝ) ≤ (a : ℝ) := by exact_mod_cast ha
    simp only [if_pos ha, decide_eq_true_iff]
    constructor
    · rintro ⟨hb, hsqle⟩
      have hb' : (0 : ℝ) ≤ (b : ℝ) := by exact_mod_cast hb
      have : ((a : ℝ) * Real.sqrt (S : ℝ)) ^ 2 ≤ (b : ℝ) ^ 2 := by
        have : ((a : ℝ) ^ 2 * (S : ℝ)) ≤ (b : ℝ) ^ 2 := by exact_mod_cast hsqle
        calc ((a : ℝ) * Real.sqrt (S : ℝ)) ^ 2 = (a : ℝ) ^ 2 * (S : ℝ) := by
              rw [mul_pow, hsq]
          _ ≤ (b : ℝ) ^ 2 := this
      have hnn : (0 : ℝ) ≤ (a : ℝ) * Real.sqrt (S : ℝ) := mul_nonneg ha' hsnn
      nlinarith [this, hnn, hb']
    · intro h
      have hb' : (0 : ℝ) ≤ (b : ℝ) := le_trans (mul_nonneg ha' hsnn) h
      refine ⟨by exact_mod_cast hb', ?_⟩
      have : ((a : ℝ) * Real.sqrt (S : ℝ)) ^ 2 ≤ (b : ℝ) ^ 2 := by
        nlinarith [h, mul_nonneg ha' hsnn, hb']
      have : (a : ℝ) ^ 2 * (S : ℝ) ≤ (b : ℝ) ^ 2 := by
        rw [mul_pow, hsq] at this; exact this
      exact_mod_cast this
  · have ha' : (a : ℝ) < 0 := by
      have : a < 0 := lt_of_not_ge ha
      exact_mod_cast this
    simp only [if_neg ha]
    by_cases hb : 0 ≤ b
    · have hb' : (0 : ℝ) ≤ (b : ℝ) := by exact_mod_cast hb
      simp only [if_pos hb, true_iff]
      calc (a : ℝ) * Real.sqrt (S : ℝ) ≤ 0 := mul_nonpos_of_nonpos_of_nonneg ha'.le hsnn
        _ ≤ (b : ℝ) := hb'
    · have hb' : (b : ℝ) < 0 := by
        have : b < 0 := lt_of_not_ge hb
        exact_mod_cast this
      simp only [if_neg hb, decide_eq_true_iff]
      constructor
      · intro h
        have h' : (b : ℝ) ^ 2 ≤ (a : ℝ) ^ 2 * (S : ℝ) := by exact_mod_cast h
        rw [← hsq, ← mul_pow] at h'
        -- b² ≤ (a·√S)² with a·√S ≤ 0 and b < 0 gives a·√S ≤ b
        nlinarith [h', mul_nonpos_of_nonpos_of_nonneg ha'.le hsnn, hb']
      · intro h
        have : (b : ℝ) ^ 2 ≤ ((a : ℝ) * Real.sqrt (S : ℝ)) ^ 2 := by
          nlinarith [h, hb', mul_nonpos_of_nonpos_of_nonneg ha'.le hsnn]
        rw [mul_pow, hsq] at this
        exact_mod_cast this

namespace WE

@[simp] theorem getS_mk (sig : List LV) (dist : List (Option ℚ))
    (q : List (ℕ × LV)) (tr : List RelaxRec) (i : ℕ) :
    getS ⟨sig, dist, q, tr⟩ i = sig.getD i LV.floor := rfl

/-! ### Solver invariants -/

theorem getD_set_self {α : Type} (l : List α) (i : ℕ) (v d : α) (h : i < l.length) :
    (l.set i v).getD i d = v := by
  rw [List.getD_eq_getElem?_getD, List.getElem?_set_eq_of_lt v h]
  rfl

theorem getD_set_ne {α : Type} (l : List α) {i j : ℕ} (v d : α) (h : i ≠ j) :
    (l.set i v).getD j d = l.getD j d := by
  rw [List.getD_eq_getElem?_getD, List.getElem?_set_ne h, ← List.getD_eq_getElem?_getD]

theorem getD_set_of_length_le {α : Type} (l : List α) (i j : ℕ) (v d : α)
    (h : l.length ≤ i) : (l.set i v).getD j d = l.getD j d := by
  rw [List.set_eq_of_length_le h]

/-- Every direction has a positive step length (for positive grid scales). -/
theorem dir_pos (P : Params) (hcs : 0 < P.cellSize) (hppm : 0 < P.ppm) :
    ∀ e ∈ P.directions, 0 < e.2.2 := by
  have hstep : 0 < P.cellSize / P.ppm := div_pos hcs hppm
  have hdiag : 0 < P.cellSize / P.ppm * (14142 / 10000) := by
    exact mul_pos hstep (by norm_num)
  intro e he
  simp only [Params.directions, List.mem_cons, List.not_mem_nil, or_false] at he
  rcases he with h | h | h | h | h | h | h | h <;> subst h
  · exact hstep
  · exact hstep
  · exact hstep
  · exact hstep
  · exact hdiag
  · exact hdiag
  · exact hdiag
  · exact hdiag

/-- A step produced by `Params.target` has a positive length. -/
theorem target_delta_pos (P : Params) (hcs : 0 < P.cellSize) (hppm : 0 < P.ppm)
    {idx di nIdx : ℕ} {δ : ℚ} (ht : P.target idx di = some (nIdx, δ)) : 0 < δ := by
  unfold Params.target at ht
  rcases hg : P.directions.get? di with _ | ⟨dr, dc, δ'⟩ <;> rw [hg] at ht
  · exact absurd ht (by simp)
  · simp only at ht
    split at ht
    · simp only [Option.some.injEq, Prod.mk.injEq] at ht
      obtain ⟨-, rfl⟩ := ht
      exact dir_pos P hcs hppm _ (List.get?_mem hg)
    · exact absurd ht (by simp)

/-- Relaxation preserves positivity of the representation. -/
theorem relaxLV_pos {cur : LV} (h0 : cur.Pos) {curD newD attn δ : ℚ}
    (hd : 0 < curD) (hd' : 0 < newD) : (relaxLV cur curD newD attn δ).Pos := by
  unfold LV.Pos at h0
  unfold relaxLV LV.Pos
  have : (0 : ℚ) < (curD / newD) ^ 60 := by positivity
  simpa using mul_pos h0 this

@[simp] theorem pathStep_none (P : Params) (di : ℕ) : pathStep P none di = none := rfl

theorem pathStep_some (P : Params) (di i0 : ℕ) (lv0 : LV) (d0 : ℚ) :
    pathStep P (some (i0, lv0, d0)) di =
      match P.target i0 di with
      | none => none
      | some (nIdx, δ) =>
        some (nIdx, relaxLV lv0 d0 (d0 + δ) (P.att.getD nIdx 0) δ, d0 + δ) := rfl

/-- `pathStep` preserves "positive representation, distance ≥ 0.1 m". -/
theorem pathStep_pos (P : Params) (hcs : 0 < P.cellSize) (hppm : 0 < P.ppm)
    (di : ℕ) (acc : Option (ℕ × LV × ℚ))
    (hacc : ∀ j mv md, acc = some (j, mv, md) → LV.Pos mv ∧ 1 / 10 ≤ md) :
    ∀ j mv md, pathStep P acc di = some (j, mv, md) → LV.Pos mv ∧ 1 / 10 ≤ md := by
  rcases acc with _ | ⟨i0, lv0, d0⟩
  · intro j mv md h
    exact absurd h (by simp [pathStep])
  · intro j mv md h
    obtain ⟨h0, hd0⟩ := hacc i0 lv0 d0 rfl
    rw [pathStep_some] at h
    rcases ht : P.target i0 di with _ | ⟨nIdx, δ⟩ <;> rw [ht] at h
    · exact absurd h (by simp)
    · have hδ : 0 < δ := target_delta_pos P hcs hppm ht
      simp only [Option.some.injEq, Prod.mk.injEq] at h
      obtain ⟨-, h2, h3⟩ := h
      have hd0' : (0 : ℚ) < d0 := lt_of_lt_of_le (by norm_num) hd0
      subst h2 h3
      exact ⟨relaxLV_pos h0 hd0' (by linarith), by linarith⟩

/-- A successfully evaluated path carries a positive representation and a
distance of at least the initial 0.1 m. -/
theorem pathEval_pos (P : Params) (hcs : 0 < P.cellSize) (hppm : 0 < P.ppm)
    (hstart : P.startSignal.Pos) (dirs : List ℕ) (i : ℕ) (lv : LV) (d : ℚ)
    (h : pathEval P dirs = some (i, lv, d)) : lv.Pos ∧ 1 / 10 ≤ d := by
  suffices H : ∀ (dirs : List ℕ) (acc : Option (ℕ × LV × ℚ)),
      (∀ j mv md, acc = some (j, mv, md) → LV.Pos mv ∧ 1 / 10 ≤ md) →
      ∀ j mv md, dirs.foldl (pathStep P) acc = some (j, mv, md) →
        LV.Pos mv ∧ 1 / 10 ≤ md by
    refine H dirs _ ?_ i lv d h
    rintro j mv md hacc
    simp only [Option.some.injEq, Prod.mk.injEq] at hacc
    obtain ⟨-, h2, h3⟩ := hacc
    subst h2 h3
    exact ⟨hstart, le_refl _⟩
  intro dirs
  induction dirs with
  | nil =>
    intro acc hacc j mv md h
    exact hacc j mv md h
  | cons di rest ih =>
    intro acc hacc j mv md h
    simp only [List.foldl_cons] at h
    exact ih (pathStep P acc di) (pathStep_pos P hcs hppm di acc hacc) j mv md h

theorem pathEval_append (P : Params) (dirs : List ℕ) (di : ℕ) :
    pathEval P (dirs ++ [di]) = pathStep P (pathEval P dirs) di := by
  unfold pathEval
  rw [List.foldl_append]
  rfl

theorem blt_floor_floor : LV.blt LV.floor LV.floor = false := by decide

theorem floor_pos : LV.Pos LV.floor := by norm_num [LV.Pos, LV.floor]

/-- Any cell of a `Good` state has a positive representation. -/
theorem Good.getS_pos {P : Params} (hcs : 0 < P.cellSize) (hppm : 0 < P.ppm)
    (hstart : P.startSignal.Pos) {s : DState} (hs : Good P s) (i : ℕ) : (getS s i).Pos := by
  rcases hs.sound i with hf | ⟨dirs, d, hpe, -⟩
  · rw [hf]; exact floor_pos
  · exact (pathEval_pos P hcs hppm hstart dirs i _ d hpe).1

theorem relaxOne_good (P : Params) (hcs : 0 < P.cellSize) (hppm : 0 < P.ppm)
    (hstart : P.startSignal.Pos) {s : DState} (hs : Good P s) {idx : ℕ} {cur : LV} {curD : ℚ}
    {p : List ℕ} (hp : pathEval P p = some (idx, cur, curD)) (di : ℕ) :
    Good P (relaxOne P idx cur curD s di) := by
  rcases ht : P.target idx di with _ | ⟨newIdx, δ⟩
  · unfold relaxOne
    rw [ht]
    exact hs
  · obtain ⟨hPos, hd⟩ := pathEval_pos P hcs hppm hstart p idx cur curD hp
    have hδ : 0 < δ := target_delta_pos P hcs hppm ht
    have hstep : relaxOne P idx cur curD s di =
        if LV.blt (getS s newIdx) (relaxLV cur curD (curD + δ) (P.att.getD newIdx 0) δ) then
          { signal := s.signal.set newIdx (relaxLV cur curD (curD + δ) (P.att.getD newIdx 0) δ)
            dist := s.dist.set newIdx (some (curD + δ))
            queue := pqEnqueue s.queue (newIdx, relaxLV cur curD (curD + δ) (P.att.getD newIdx 0) δ)
            trace := s.trace ++ [⟨newIdx, getS s newIdx,
              relaxLV cur curD (curD + δ) (P.att.getD newIdx 0) δ⟩] }
        else s := by
      unfold relaxOne
      rw [ht]
    rw [hstep]
    set attn := P.att.getD newIdx 0 with hattn
    set newD := curD + δ with hnewD
    set newSignal := relaxLV cur curD newD attn δ with hnewSignal
    have hpath' : pathEval P (p ++ [di]) = some (newIdx, newSignal, newD) := by
      rw [pathEval_append, hp, pathStep_some, ht]
    have hposNew : newSignal.Pos :=
      (pathEval_pos P hcs hppm hstart (p ++ [di]) newIdx newSignal newD hpath').1
    have hposOld : (getS s newIdx).Pos := hs.getS_pos hcs hppm hstart newIdx
    by_cases hblt : LV.blt (getS s newIdx) newSignal
    · rw [if_pos hblt]
      have hdistlen : s.dist.length = s.signal.length := by
        rw [hs.len_dist, hs.len_sig]
      refine ⟨?_, ?_, ?_, ?_⟩
      · simpa using hs.len_sig
      · simpa using hs.len_dist
      · intro i
        simp only [getS_mk]
        by_cases hrange : newIdx < s.signal.length
        · by_cases hij : newIdx = i
          · subst hij
            rw [getD_set_self _ _ _ _ hrange]
            refine Or.inr ⟨p ++ [di], newD, hpath', ?_⟩
            show (s.dist.set newIdx (some newD)).getD newIdx none = some newD
            exact getD_set_self _ _ _ _ (hdistlen ▸ hrange)
          · rw [getD_set_ne _ _ _ hij]
            rcases hs.sound i with hf | ⟨dirs, d, hpe, hdist⟩
            · exact Or.inl hf
            · refine Or.inr ⟨dirs, d, hpe, ?_⟩
              show (s.dist.set newIdx (some newD)).getD i none = some d
              rw [getD_set_ne _ _ _ hij]
              exact hdist
        · push_neg at hrange
          rw [getD_set_of_length_le _ _ _ _ _ hrange]
          rcases hs.sound i with hf | ⟨dirs, d, hpe, hdist⟩
          · exact Or.inl hf
          · refine Or.inr ⟨dirs, d, hpe, ?_⟩
            show (s.dist.set newIdx (some newD)).getD i none = some d
            rw [getD_set_of_length_le _ _ _ _ _ (hdistlen ▸ hrange)]
            exact hdist
      · intro rec hrec
        simp only [List.mem_append, List.mem_singleton] at hrec
        rcases hrec with hold | rfl
        · exact hs.trace_lt rec hold
        · exact (LV.blt_iff hposOld hposNew).mp hblt
    · rw [if_neg hblt]
      exact hs

theorem foldl_relaxOne_good (P : Params) (hcs : 0 < P.cellSize) (hppm : 0 < P.ppm)
    (hstart : P.startSignal.Pos) {idx : ℕ} {cur : LV} {curD : ℚ} {p : List ℕ}
    (hp : pathEval P p = some (idx, cur, curD)) (dis : List ℕ) :
    ∀ {s : DState}, Good P s → Good P (dis.foldl (relaxOne P idx cur curD) s) := by
  induction dis with
  | nil => intro s hs; exact hs
  | cons di rest ih =>
    intro s hs
    exact ih (relaxOne_good P hcs hppm hstart hs hp di)

theorem runStep_good (P : Params) (hcs : 0 < P.cellSize) (hppm : 0 < P.ppm)
    (hstart : P.startSignal.Pos) {s : DState} (hs : Good P s) : Good P (runStep P s) := by
  rcases hq : s.queue with _ | ⟨⟨idx, pr⟩, rest⟩
  · unfold runStep
    rw [hq]
    exact hs
  · have hstep : runStep P s =
        (let s' : DState := { s with queue := rest }
         let cur := getS s' idx
         if ! LV.blt LV.floor cur then s'
         else
           let curD := (s'.dist.getD idx none).getD 0
           (List.range P.directions.length).foldl (relaxOne P idx cur curD) s') := by
      unfold runStep
      rw [hq]
    rw [hstep]
    have hs' : Good P ({ s with queue := rest } : DState) :=
      ⟨hs.len_sig, hs.len_dist, hs.sound, hs.trace_lt⟩
    by_cases hgate : LV.blt LV.floor (getS ({ s with queue := rest } : DState) idx)
    · simp only [hgate, Bool.not_true, Bool.false_eq_true, if_false]
      rcases hs'.sound idx with hf | ⟨p, d, hpe, hdist⟩
      · rw [hf] at hgate
        rw [blt_floor_floor] at hgate
        exact absurd hgate (by simp)
      · rw [hdist]
        exact foldl_relaxOne_good P hcs hppm hstart hpe _ hs'
    · simp only [hgate, Bool.not_false, if_true]
      exact hs'

theorem run_good (P : Params) (hcs : 0 < P.cellSize) (hppm : 0 < P.ppm)
    (hstart : P.startSignal.Pos) (fuel : ℕ) {s : DState} (hs : Good P s) :
    Good P (run P fuel s) := by
  induction fuel generalizing s with
  | zero => exact hs
  | succ n ih =>
    unfold run
    rcases hq : s.queue with _ | ⟨e, rest⟩
    · exact hs
    · exact ih (runStep_good P hcs hppm hstart hs)

theorem getD_replicate {α : Type} (n i : ℕ) (a d : α) :
    (List.replicate n a).getD i d = if i < n then a else d := by
  rw [List.getD_eq_getElem?_getD, List.getElem?_replicate]
  split <;> rfl

theorem initState_good (P : Params) : Good P (initState P) := by
  have hsize : ((List.replicate (P.cols * P.rows) LV.floor).set P.startIdx
      P.startSignal).length = P.cols * P.rows := by
    rw [List.length_set, List.length_replicate]
  refine ⟨hsize, by simp only [initState]; rw [List.length_set, List.length_replicate], ?_,
    by simp [initState]⟩
  intro i
  simp only [initState, getS_mk]
  by_cases hrange : P.startIdx < P.cols * P.rows
  · by_cases hij : P.startIdx = i
    · subst hij
      rw [getD_set_self _ _ _ _ (by rwa [List.length_replicate])]
      refine Or.inr ⟨[], 1 / 10, rfl, ?_⟩
      exact getD_set_self _ _ _ _ (by rwa [List.length_replicate])
    · rw [getD_set_ne _ _ _ hij, getD_replicate]
      split <;> simp
  · push_neg at hrange
    rw [getD_set_of_length_le _ _ _ _ _ (by rwa [List.length_replicate])]
    rw [getD_replicate]
    split <;> simp

theorem runDijkstra_good (P : Params) (hcs : 0 < P.cellSize) (hppm : 0 < P.ppm)
    (hstart : P.startSignal.Pos) (fuel : ℕ) : Good P (runDijkstra P fuel) := by
  unfold runDijkstra
  split
  · exact run_good P hcs hppm hstart fuel (initState_good P)
  · refine ⟨List.length_replicate .., List.length_replicate .., ?_, by simp⟩
    intro i
    simp only [getS_mk, getD_replicate]
    split <;> simp

/-- Anatomy of a successful `Params.target`. -/
theorem target_spec (P : Params) {idx di nI : ℕ} {δ : ℚ}
    (ht : P.target idx di = some (nI, δ)) :
    ∃ nr nc : ℤ, 0 ≤ nr ∧ nr < P.rows ∧ 0 ≤ nc ∧ nc < P.cols ∧
      P.mask (Int.toNat nc) (Int.toNat nr) = true ∧ nI = (nr * P.cols + nc).toNat := by
  unfold Params.target at ht
  rcases hg : P.directions.get? di with _ | ⟨dr, dc, δ'⟩ <;> rw [hg] at ht
  · exact absurd ht (by simp)
  · simp only at ht
    split at ht
    · rename_i hcond
      simp only [Option.some.injEq, Prod.mk.injEq] at ht
      obtain ⟨h1, -⟩ := ht
      exact ⟨_, _, hcond.1, hcond.2.1, hcond.2.2.1, hcond.2.2.2.1, hcond.2.2.2.2, h1.symm⟩
    · exact absurd ht (by simp)

/-- Relaxation only ever writes cells the mask admits. -/
theorem maskAt_of_target (P : Params) {idx di nI : ℕ} {δ : ℚ}
    (ht : P.target idx di = some (nI, δ)) : maskAt P nI = true := by
  obtain ⟨nr, nc, hnr0, hnrR, hnc0, hncC, hmask, hni⟩ := target_spec P ht
  have hcols : 0 < P.cols := by
    rcases Nat.eq_zero_or_pos P.cols with h | h
    · rw [h] at hncC
      omega
    · exact h
  have hcast : nr * P.cols + nc = ((nc.toNat + P.cols * nr.toNat : ℕ) : ℤ) := by
    push_cast [Int.toNat_of_nonneg hnr0, Int.toNat_of_nonneg hnc0]
    ring
  have hsplit : nI = nc.toNat + P.cols * nr.toNat := by
    rw [hni, hcast, Int.toNat_natCast]
  unfold maskAt
  rw [hsplit]
  rw [Nat.add_mul_mod_self_left, Nat.mod_eq_of_lt (by omega)]
  rw [Nat.add_mul_div_left _ _ hcols, Nat.div_eq_of_lt (by omega)]
  simpa using hmask

/-- A relaxation step never decreases any cell's value. -/
theorem relaxOne_le (P : Params) (hcs : 0 < P.cellSize) (hppm : 0 < P.ppm)
    (hstart : P.startSignal.Pos) {s : DState} (hs : Good P s)
    {idx : ℕ} {cur : LV} {curD : ℚ} {p : List ℕ}
    (hp : pathEval P p = some (idx, cur, curD)) (di : ℕ) (i : ℕ) :
    LV.val (getS s i) ≤ LV.val (getS (relaxOne P idx cur curD s di) i) := by
  rcases ht : P.target idx di with _ | ⟨newIdx, δ⟩
  · unfold relaxOne
    rw [ht]
  · have hstep : relaxOne P idx cur curD s di =
        if LV.blt (getS s newIdx) (relaxLV cur curD (curD + δ) (P.att.getD newIdx 0) δ) then
          { signal := s.signal.set newIdx (relaxLV cur curD (curD + δ) (P.att.getD newIdx 0) δ)
            dist := s.dist.set newIdx (some (curD + δ))
            queue := pqEnqueue s.queue (newIdx, relaxLV cur curD (curD + δ) (P.att.getD newIdx 0) δ)
            trace := s.trace ++ [⟨newIdx, getS s newIdx,
              relaxLV cur curD (curD + δ) (P.att.getD newIdx 0) δ⟩] }
        else s := by
      unfold relaxOne
      rw [ht]
    rw [hstep]
    set newSignal := relaxLV cur curD (curD + δ) (P.att.getD newIdx 0) δ with hns
    by_cases hblt : LV.blt (getS s newIdx) newSignal
    · rw [if_pos hblt]
      simp only [getS_mk]
      by_cases hrange : newIdx < s.signal.length
      · by_cases hij : newIdx = i
        · subst hij
          rw [getD_set_self _ _ _ _ hrange]
          have hpath' : pathEval P (p ++ [di]) = some (newIdx, newSignal, curD + δ) := by
            rw [pathEval_append, hp, pathStep_some, ht]
          have hposNew : newSignal.Pos :=
            (pathEval_pos P hcs hppm hstart (p ++ [di]) newIdx newSignal _ hpath').1
          exact ((LV.blt_iff (hs.getS_pos hcs hppm hstart newIdx) hposNew).mp hblt).le
        · rw [getD_set_ne _ _ _ hij]
          exact le_refl _
      · push_neg at hrange
        rw [getD_set_of_length_le _ _ _ _ _ hrange]
        exact le_refl _
    · rw [if_neg hblt]

theorem foldl_relaxOne_le (P : Params) (hcs : 0 < P.cellSize) (hppm : 0 < P.ppm)
    (hstart : P.startSignal.Pos) {idx : ℕ} {cur : LV} {curD : ℚ} {p : List ℕ}
    (hp : pathEval P p = some (idx, cur, curD)) (dis : List ℕ) :
    ∀ {s : DState}, Good P s → ∀ i,
      LV.val (getS s i) ≤ LV.val (getS (dis.foldl (relaxOne P idx cur curD) s) i) := by
  induction dis with
  | nil => intro s _ i; exact le_refl _
  | cons di rest ih =>
    intro s hs i
    calc LV.val (getS s i) ≤ LV.val (getS (relaxOne P idx cur curD s di) i) :=
          relaxOne_le P hcs hppm hstart hs hp di i
      _ ≤ _ := ih (relaxOne_good P hcs hppm hstart hs hp di) i

theorem runStep_le (P : Params) (hcs : 0 < P.cellSize) (hppm : 0 < P.ppm)
    (hstart : P.startSignal.Pos) {s : DState} (hs : Good P s) (i : ℕ) :
    LV.val (getS s i) ≤ LV.val (getS (runStep P s) i) := by
  rcases hq : s.queue with _ | ⟨⟨idx, pr⟩, rest⟩
  · unfold runStep
    rw [hq]
  · have hstep : runStep P s =
        (let s' : DState := { s with queue := rest }
         let cur := getS s' idx
         if ! LV.blt LV.floor cur then s'
         else
           let curD := (s'.dist.getD idx none).getD 0
           (List.range P.directions.length).foldl (relaxOne P idx cur curD) s') := by
      unfold runStep
      rw [hq]
    rw [hstep]
    have hs' : Good P ({ s with queue := rest } : DState) :=
      ⟨hs.len_sig, hs.len_dist, hs.sound, hs.trace_lt⟩
    by_cases hgate : LV.blt LV.floor (getS ({ s with queue := rest } : DState) idx)
    · simp only [hgate, Bool.not_true, Bool.false_eq_true, if_false]
      rcases hs'.sound idx with hf | ⟨p, d, hpe, hdist⟩
      · rw [hf] at hgate
        rw [blt_floor_floor] at hgate
        exact absurd hgate (by simp)
      · rw [hdist]
        exact foldl_relaxOne_le P hcs hppm hstart hpe _ hs' i
    · simp only [hgate, Bool.not_false, if_true]
      exact le_refl _

theorem run_le (P : Params) (hcs : 0 < P.cellSize) (hppm : 0 < P.ppm)
    (hstart : P.startSignal.Pos) (fuel : ℕ) {s : DState} (hs : Good P s) (i : ℕ) :
    LV.val (getS s i) ≤ LV.val (getS (run P fuel s) i) := by
  induction fuel generalizing s with
  | zero => exact le_refl _
  | succ n ih =>
    unfold run
    rcases hq : s.queue with _ | ⟨e, rest⟩
    · exact le_refl _
    · calc LV.val (getS s i) ≤ LV.val (getS (runStep P s) i) :=
            runStep_le P hcs hppm hstart hs i
        _ ≤ _ := ih (runStep_good P hcs hppm hstart hs)

/-- Every cell of the initial state is the floor or the seeded source. -/
theorem initState_ge (P : Params) (hfloor : -120 ≤ LV.val P.startSignal) (i : ℕ) :
    -120 ≤ LV.val (getS (initState P) i) := by
  unfold initState
  simp only [getS_mk]
  by_cases hrange : P.startIdx < P.cols * P.rows
  · by_cases hij : P.startIdx = i
    · subst hij
      rw [getD_set_self _ _ _ _ (by rwa [List.length_replicate])]
      exact hfloor
    · rw [getD_set_ne _ _ _ hij, getD_replicate]
      split <;> simp
  · push_neg at hrange
    rw [getD_set_of_length_le _ _ _ _ _ (by rwa [List.length_replicate]), getD_replicate]
    split <;> simp

theorem relaxOne_notMasked (P : Params) {s : DState} (hs : NotMasked P s)
    (idx : ℕ) (cur : LV) (curD : ℚ) (di : ℕ) :
    NotMasked P (relaxOne P idx cur curD s di) := by
  rcases ht : P.target idx di with _ | ⟨newIdx, δ⟩
  · unfold relaxOne
    rw [ht]
    exact hs
  · have hstep : relaxOne P idx cur curD s di =
        if LV.blt (getS s newIdx) (relaxLV cur curD (curD + δ) (P.att.getD newIdx 0) δ) then
          { signal := s.signal.set newIdx (relaxLV cur curD (curD + δ) (P.att.getD newIdx 0) δ)
            dist := s.dist.set newIdx (some (curD + δ))
            queue := pqEnqueue s.queue (newIdx, relaxLV cur curD (curD + δ) (P.att.getD newIdx 0) δ)
            trace := s.trace ++ [⟨newIdx, getS s newIdx,
              relaxLV cur curD (curD + δ) (P.att.getD newIdx 0) δ⟩] }
        else s := by
      unfold relaxOne
      rw [ht]
    rw [hstep]
    by_cases hblt : LV.blt (getS s newIdx) (relaxLV cur curD (curD + δ) (P.att.getD newIdx 0) δ)
    · rw [if_pos hblt]
      intro i hmask hstart
      simp only [getS_mk]
      by_cases hij : newIdx = i
      · subst hij
        rw [maskAt_of_target P ht] at hmask
        exact absurd hmask (by simp)
      · rw [getD_set_ne _ _ _ hij]
        exact hs i hmask hstart
    · rw [if_neg hblt]
      exact hs

theorem foldl_relaxOne_notMasked (P : Params) (idx : ℕ) (cur : LV) (curD : ℚ)
    (dis : List ℕ) :
    ∀ {s : DState}, NotMasked P s → NotMasked P (dis.foldl (relaxOne P idx cur curD) s) := by
  induction dis with
  | nil => intro s hs; exact hs
  | cons di rest ih =>
    intro s hs
    exact ih (relaxOne_notMasked P hs idx cur curD di)

theorem runStep_notMasked (P : Params) {s : DState} (hs : NotMasked P s) :
    NotMasked P (runStep P s) := by
  rcases hq : s.queue with _ | ⟨⟨idx, pr⟩, rest⟩
  · unfold runStep
    rw [hq]
    exact hs
  · have hstep : runStep P s =
        (let s' : DState := { s with queue := rest }
         let cur := getS s' idx
         if ! LV.blt LV.floor cur then s'
         else
           let curD := (s'.dist.getD idx none).getD 0
           (List.range P.directions.length).foldl (relaxOne P idx cur curD) s') := by
      unfold runStep
      rw [hq]
    rw [hstep]
    have hs' : NotMasked P ({ s with queue := rest } : DState) := hs
    by_cases hgate : LV.blt LV.floor (getS ({ s with queue := rest } : DState) idx)
    · simp only [hgate, Bool.not_true, Bool.false_eq_true, if_false]
      exact foldl_relaxOne_notMasked P idx _ _ _ hs'
    · simp only [hgate, Bool.not_false, if_true]
      exact hs'

theorem run_notMasked (P : Params) (fuel : ℕ) {s : DState} (hs : NotMasked P s) :
    NotMasked P (run P fuel s) := by
  induction fuel generalizing s with
  | zero => exact hs
  | succ n ih =>
    unfold run
    rcases hq : s.queue with _ | ⟨e, rest⟩
    · exact hs
    · exact ih (runStep_notMasked P hs)

theorem initState_notMasked (P : Params) : NotMasked P (initState P) := by
  intro i hmask hstart
  unfold initState
  simp only [getS_mk]
  rw [getD_set_ne _ _ _ (fun h => hstart h.symm), getD_replicate]
  split <;> rfl

theorem runDijkstra_notMasked (P : Params) (fuel : ℕ) :
    NotMasked P (runDijkstra P fuel) := by
  unfold runDijkstra
  split
  · exact run_notMasked P fuel (initState_notMasked P)
  · intro i hmask hstart
    simp only [getS_mk, getD_replicate]
    split <;> rfl

end WE


/-- C1 (amended).  In `runDijkstra` of `waveEngine.ts`, a cell's recorded
value is updated (and the cell enqueued) only when the candidate signal
strictly improves on the cell's previously recorded best — every entry of the
relaxation trace is a strict improvement — and on any state the loop
reaches, every cell's value is either the −120 floor or the exact signal of
some 8-connected grid path from the source cell.  Equality with the maximum
over all such paths does not hold in general (see the counterexample). -/
theorem C1_relaxation_strict_and_sound (P : WE.Params) (fuel : ℕ)
    (hcs : 0 < P.cellSize) (hppm : 0 < P.ppm) (hstart : P.startSignal.Pos) :
    (∀ rec ∈ (WE.runDijkstra P fuel).trace, LV.val rec.old < LV.val rec.new) ∧
    (∀ i, WE.getS (WE.runDijkstra P fuel) i = LV.floor ∨
      ∃ dirs d, WE.pathEval P dirs = some (i, WE.getS (WE.runDijkstra P fuel) i, d)) := by
  have h := WE.runDijkstra_good P hcs hppm hstart fuel
  refine ⟨h.trace_lt, fun i => ?_⟩
  rcases h.sound i with hf | ⟨dirs, d, hpe, -⟩
  · exact Or.inl hf
  · exact Or.inr ⟨dirs, d, hpe⟩

/-- Witness for C1 at a concrete run. -/
theorem C1_witness :
    (0 : ℚ) < WE.mazeParams.cellSize ∧ (0 : ℚ) < WE.mazeParams.ppm ∧
    WE.mazeParams.startSignal.Pos ∧
    ((∀ rec ∈ (WE.runDijkstra WE.mazeParams 60).trace, LV.val rec.old < LV.val rec.new) ∧
     (∀ i, WE.getS (WE.runDijkstra WE.mazeParams 60) i = LV.floor ∨
       ∃ dirs d, WE.pathEval WE.mazeParams dirs =
         some (i, WE.getS (WE.runDijkstra WE.mazeParams 60) i, d))) :=
  ⟨by norm_num [WE.mazeParams], by norm_num [WE.mazeParams], by decide,
    C1_relaxation_strict_and_sound WE.mazeParams 60
      (by norm_num [WE.mazeParams]) (by norm_num [WE.mazeParams]) (by decide)⟩

/-- C1 counterexample.  In the bottleneck scene `mazeParams` the loop
terminates (empty queue), yet the final value of cell 7 is *not* the greatest
signal achievable over 8-connected paths from the source: the detour path
[↗, ↘, →] through the loss-free row 0 reaches cell 7 with a strictly higher
signal than the recorded one, because cell 7's only usable neighbour keeps
the lossy-but-shorter state whose later free-space increments are larger. -/
theorem C1_not_path_optimal :
    (WE.runDijkstra WE.mazeParams 60).queue = [] ∧
    ¬ IsGreatest {x : ℝ | ∃ dirs lv d,
        WE.pathEval WE.mazeParams dirs = some (7, lv, d) ∧ x = LV.val lv}
      (LV.val (WE.getS (WE.runDijkstra WE.mazeParams 60) 7)) := by
  constructor
  · decide
  · rintro ⟨-, hub⟩
    have hpe : WE.pathEval WE.mazeParams [5, 7, 3] =
        some (7, ⟨20, ((250 : ℚ) / 9821) ^ 60⟩, 9821 / 2500) := by decide
    have hmem : LV.val ⟨20, ((250 : ℚ) / 9821) ^ 60⟩ ∈ {x : ℝ | ∃ dirs lv d,
        WE.pathEval WE.mazeParams dirs = some (7, lv, d) ∧ x = LV.val lv} :=
      ⟨[5, 7, 3], ⟨20, ((250 : ℚ) / 9821) ^ 60⟩, 9821 / 2500, hpe, rfl⟩
    have hle := hub hmem
    have hblt : LV.blt (WE.getS (WE.runDijkstra WE.mazeParams 60) 7)
        ⟨20, ((250 : ℚ) / 9821) ^ 60⟩ = true := by decide
    have h1 : (WE.getS (WE.runDijkstra WE.mazeParams 60) 7).Pos := by decide
    have h2 : LV.Pos ⟨20, ((250 : ℚ) / 9821) ^ 60⟩ := by decide
    have := (LV.blt_iff h1 h2).mp hblt
    linarith

namespace WE

/-! ## C4: the −120 dBm floor -/


/-- Denotation of the seeded main start signal:
`txPower − (30·log₁₀(0.1) + CONSTANT_FSPL)`. -/
theorem val_mainStartLV (tx : ℚ) : LV.val (mainStartLV tx) =
    tx - (30 * Real.logb 10 (1 / 10) + (20 * Real.logb 10 2400 - 2755 / 100)) := by
  unfold LV.val mainStartLV
  simp only
  have hcast : (((((1 : ℚ) / 2400) ^ 40 : ℚ)) : ℝ) = ((1 : ℝ) / 2400) ^ 40 := by
    push_cast
    ring
  rw [hcast]
  have h1 : Real.logb 10 (((1 : ℝ) / 2400) ^ 40) = -(40 * Real.logb 10 2400) := by
    rw [Real.logb_pow, one_div, Real.logb_inv]
    ring
  have h2 : Real.logb 10 ((1 : ℝ) / 10) = -1 := by
    rw [one_div, Real.logb_inv, Real.logb_self_eq_one (by norm_num)]
  rw [h1, h2]
  push_cast
  ring

/-- The power-sum merge keeps cells at or above the floor. -/
theorem mergeCell_ge (x y : ℝ) (hx : -120 ≤ x) : -120 ≤ mergeCell x y := by
  unfold mergeCell
  by_cases hy : -120 < y
  · rw [if_pos hy]
    by_cases hxf : x ≤ -120
    · rw [if_pos hxf]
      linarith
    · rw [if_neg hxf]
      push_neg at hxf
      have hp1 : (0 : ℝ) < (10 : ℝ) ^ (x / 10) := Real.rpow_pos_of_pos (by norm_num) _
      have hp2 : (0 : ℝ) < (10 : ℝ) ^ (y / 10) := Real.rpow_pos_of_pos (by norm_num) _
      have hbase : Real.logb 10 ((10 : ℝ) ^ (x / 10)) = x / 10 :=
        Real.logb_rpow (by norm_num) (by norm_num)
      have hmono : Real.logb 10 ((10 : ℝ) ^ (x / 10)) ≤
          Real.logb 10 ((10 : ℝ) ^ (x / 10) + (10 : ℝ) ^ (y / 10)) :=
        Real.logb_le_logb_of_le (by norm_num) hp1 (by linarith)
      rw [hbase] at hmono
      linarith
  · rw [if_neg hy]
    exact hx

/-- A contribution at or below the floor is not merged. -/
theorem mergeCell_skip (x y : ℝ) (hy : y ≤ -120) : mergeCell x y = x := by
  unfold mergeCell
  rw [if_neg (not_lt.mpr hy)]

end WE


/-- C4 (amended).  Provided the seeded start signal is at least −120 dBm,
every cell of the solver's field stays at or above the −120 floor (the
source cell is written with the start signal unconditionally, so a start
signal below the floor violates it — see the counterexample); the power-sum
reflection merge never drags a cell below the floor, and a contribution at
or below the floor leaves the field untouched. -/
theorem C4_floor_clamp (P : WE.Params) (fuel : ℕ) (hcs : 0 < P.cellSize)
    (hppm : 0 < P.ppm) (hstart : P.startSignal.Pos)
    (hfloor : -120 ≤ LV.val P.startSignal) :
    (∀ i, -120 ≤ LV.val (WE.getS (WE.runDijkstra P fuel) i)) ∧
    (∀ x y : ℝ, -120 ≤ x → -120 ≤ WE.mergeCell x y) ∧
    (∀ x y : ℝ, y ≤ -120 → WE.mergeCell x y = x) := by
  refine ⟨?_, WE.mergeCell_ge, WE.mergeCell_skip⟩
  intro i
  unfold WE.runDijkstra
  split
  · calc (-120 : ℝ) ≤ LV.val (WE.getS (WE.initState P) i) := WE.initState_ge P hfloor i
      _ ≤ _ := WE.run_le P hcs hppm hstart fuel (WE.initState_good P) i
  · simp only [WE.getS_mk, WE.getD_replicate]
    split <;> simp

/-- Witness for C4 at a concrete run. -/
theorem C4_witness :
    (0 : ℚ) < WE.smallParams.cellSize ∧ (0 : ℚ) < WE.smallParams.ppm ∧
    WE.smallParams.startSignal.Pos ∧ -120 ≤ LV.val WE.smallParams.startSignal ∧
    ((∀ i, -120 ≤ LV.val (WE.getS (WE.runDijkstra WE.smallParams 8) i)) ∧
     (∀ x y : ℝ, -120 ≤ x → -120 ≤ WE.mergeCell x y) ∧
     (∀ x y : ℝ, y ≤ -120 → WE.mergeCell x y = x)) :=
  ⟨by decide, by decide, by decide,
    by rw [show WE.smallParams.startSignal = (⟨20, 1⟩ : LV) from rfl, LV.val_mk_one]; norm_num,
    C4_floor_clamp WE.smallParams 8 (by decide) (by decide) (by decide)
      (by rw [show WE.smallParams.startSignal = (⟨20, 1⟩ : LV) from rfl, LV.val_mk_one]; norm_num)⟩

/-- C4 counterexample.  With a start signal of −130 dBm the solver's
returned field holds −130 < −120 at the source cell: the source cell is
seeded unconditionally and is never clamped to the floor, refuting the claim
for every input. -/
theorem C4_counterexample :
    (WE.runDijkstra WE.lowParams 5).queue = [] ∧
    LV.val (WE.getS (WE.runDijkstra WE.lowParams 5) 0) < -120 := by
  refine ⟨by decide, ?_⟩
  have h : WE.getS (WE.runDijkstra WE.lowParams 5) 0 = ⟨-130, 1⟩ := by decide
  rw [h, LV.val_mk_one]
  norm_num


/-- C5 (amended).  For every metal wall processed by the reflection
engine: the reflected field is computed over an attenuation grid rebuilt
with that wall excluded, from the mirrored virtual source, and relaxation is
masked to cells whose center has the emitter's `getSideOfLine` sign — so
every cell on the opposite side retains the floor in the reflected field,
*except* the virtual source's own cell, which is seeded with the start
signal regardless of the mask (see the counterexample). -/
theorem C5_reflection_grid_and_mask (ap : WE.AccessPoint) (wall : Wall)
    (walls : List Wall) (doors : List Door) (width height cellSize ppm : ℚ)
    (fuel : ℕ) :
    (WE.reflectionParams ap wall walls doors width height cellSize ppm).att =
      WE.buildAttenuationGrid (walls.filter (fun w2 => w2.id ≠ wall.id))
        doors width height cellSize ppm ∧
    (WE.reflectionParams ap wall walls doors width height cellSize ppm).startPt =
      mirrorPointAcrossLine ⟨ap.x, ap.y⟩ wall.start wall.«end» ∧
    (∀ i, i ≠ (WE.reflectionParams ap wall walls doors width height cellSize ppm).startIdx →
      getSideOfLine wall.start wall.«end»
        ⟨((i % (WE.reflectionParams ap wall walls doors width height cellSize ppm).cols : ℕ) : ℚ)
            * cellSize + cellSize / 2,
          ((i / (WE.reflectionParams ap wall walls doors width height cellSize ppm).cols : ℕ) : ℚ)
            * cellSize + cellSize / 2⟩ ≠ WE.apSideOf ap wall →
      WE.getS (WE.runDijkstra
        (WE.reflectionParams ap wall walls doors width height cellSize ppm) fuel) i =
        LV.floor) := by
  refine ⟨rfl, rfl, ?_⟩
  intro i hstart hside
  apply WE.runDijkstra_notMasked _ fuel i _ hstart
  exact decide_eq_false hside

/-- Witness for C5: on the wider canvas, cell 4 is a far-side non-source
cell and the reflected field leaves it at the floor. -/
theorem C5_witness :
    ((4 : ℕ) ≠ WE.c5Pw.startIdx ∧
     getSideOfLine WE.c5wall.start WE.c5wall.«end»
       ⟨((4 % WE.c5Pw.cols : ℕ) : ℚ) * 10 + 10 / 2,
         ((4 / WE.c5Pw.cols : ℕ) : ℚ) * 10 + 10 / 2⟩ ≠ WE.apSideOf WE.c5ap WE.c5wall) ∧
    WE.getS (WE.runDijkstra WE.c5Pw 8) 4 = LV.floor :=
  ⟨⟨by decide, by decide⟩,
    (C5_reflection_grid_and_mask WE.c5ap WE.c5wall [WE.c5wall] [] 50 10 10 40 8).2.2
      4 (by decide) (by decide)⟩

/-- C5 counterexample.  The reflected run terminates; cell 3 — the
virtual source's cell — lies strictly on the opposite side of the mirror
wall, yet its value in the reflected field is the seeded start signal,
strictly above the floor. -/
theorem C5_counterexample :
    (WE.runDijkstra WE.c5P 5).queue = [] ∧
    getSideOfLine WE.c5wall.start WE.c5wall.«end»
      ⟨(3 : ℚ) * 10 + 10 / 2, (0 : ℚ) * 10 + 10 / 2⟩ ≠ WE.apSideOf WE.c5ap WE.c5wall ∧
    -120 < LV.val (WE.getS (WE.runDijkstra WE.c5P 5) 3) := by
  refine ⟨by decide, by decide, ?_⟩
  have hval : WE.getS (WE.runDijkstra WE.c5P 5) 3 = WE.reflStartLV 20 := by decide
  have hblt : LV.blt LV.floor (WE.reflStartLV 20) = true := by decide
  have hpos : (WE.reflStartLV 20).Pos := by decide
  have h := (LV.blt_iff WE.floor_pos hpos).mp hblt
  rw [hval]
  simpa using h

/-! ## C7: out-of-bounds source -/

/-- C7.  When the source point's cell lies outside
`[0, cols) × [0, rows)`, `runDijkstra` returns the all-floor field (and the
embedding is a total function — no exception is raised). -/
theorem C7_out_of_bounds_all_floor (P : WE.Params) (fuel : ℕ)
    (h : ¬ P.inBounds) :
    (WE.runDijkstra P fuel).signal = List.replicate (P.cols * P.rows) LV.floor ∧
    ∀ i, LV.val (WE.getS (WE.runDijkstra P fuel) i) = -120 := by
  unfold WE.runDijkstra
  rw [if_neg h]
  refine ⟨rfl, fun i => ?_⟩
  simp only [WE.getS_mk, WE.getD_replicate]
  split <;> simp

/-- Witness for C7: an emitter dragged off the left edge of the canvas. -/
theorem C7_witness : ¬ WE.oobParams.inBounds ∧
    ((WE.runDijkstra WE.oobParams 5).signal =
        List.replicate (WE.oobParams.cols * WE.oobParams.rows) LV.floor ∧
      ∀ i, LV.val (WE.getS (WE.runDijkstra WE.oobParams 5) i) = -120) :=
  ⟨by decide, C7_out_of_bounds_all_floor WE.oobParams 5 (by decide)⟩

/-! ## The attenuation-grid builders: C3, C8 -/

/-- Fold preservation of an invariant, membership-aware. -/
theorem foldl_invariant_mem {α β : Type} (f : α → β → α) (Inv : α → Prop) :
    ∀ (l : List β), (∀ a x, x ∈ l → Inv a → Inv (f a x)) →
      ∀ a, Inv a → Inv (l.foldl f a) := by
  intro l
  induction l with
  | nil => intro _ a ha; exact ha
  | cons x rest ih =>
    intro hf a ha
    exact ih (fun a y hy => hf a y (List.mem_cons_of_mem x hy))
      (f a x) (hf a x (List.mem_cons_self x rest) ha)

namespace WE


/-- One max-stamp either leaves a cell alone or sets it to the density. -/
theorem setmax_subvals (g : List ℚ) (idx : ℕ) (dens : ℚ) (i : ℕ) :
    (g.set idx (max (g.getD idx 0) dens)).getD i 0 = g.getD i 0 ∨
    (g.set idx (max (g.getD idx 0) dens)).getD i 0 = dens := by
  by_cases hrange : idx < g.length
  · by_cases hij : idx = i
    · subst hij
      rw [getD_set_self _ _ _ _ hrange]
      rcases max_choice (g.getD idx 0) dens with h | h
      · exact Or.inl h
      · exact Or.inr h
    · rw [getD_set_ne _ _ _ hij]
      exact Or.inl rfl
  · push_neg at hrange
    rw [getD_set_of_length_le _ _ _ _ _ hrange]
    exact Or.inl rfl

theorem stampBlock_subvals (cols rows radius : ℕ) (baseCol baseRow : ℤ)
    (dens : ℚ) (g : List ℚ) (i : ℕ) :
    (stampBlock cols rows radius baseCol baseRow dens g).getD i 0 = g.getD i 0 ∨
    (stampBlock cols rows radius baseCol baseRow dens g).getD i 0 = dens := by
  unfold stampBlock
  refine foldl_invariant_mem _
    (fun g' : List ℚ => ∀ j, g'.getD j 0 = g.getD j 0 ∨ g'.getD j 0 = dens)
    _ ?_ g (fun _ => Or.inl rfl) i
  intro a kr _ ha
  refine foldl_invariant_mem _
    (fun g' : List ℚ => ∀ j, g'.getD j 0 = g.getD j 0 ∨ g'.getD j 0 = dens)
    _ ?_ a ha
  intro b kc _ hb j
  dsimp only
  split
  · rcases setmax_subvals b _ dens j with h | h
    · rw [h]; exact hb j
    · exact Or.inr h
  · exact hb j

theorem stampWall_subvals (doors : List Door) (cols rows : ℕ) (cellSize ppm : ℚ)
    (g : List ℚ) (wall : Wall) (i : ℕ) :
    (stampWall doors cols rows cellSize ppm g wall).getD i 0 = g.getD i 0 ∨
    (stampWall doors cols rows cellSize ppm g wall).getD i 0 = density ppm wall := by
  unfold stampWall
  dsimp only
  split
  · exact Or.inl rfl
  · refine foldl_invariant_mem _
      (fun g' : List ℚ => ∀ j, g'.getD j 0 = g.getD j 0 ∨ g'.getD j 0 = density ppm wall)
      _ ?_ g (fun _ => Or.inl rfl) i
    intro a k _ ha j
    dsimp only
    split
    · exact ha j
    · rcases stampBlock_subvals cols rows _ _ _ (density ppm wall) a j with h | h
      · rw [h]; exact ha j
      · exact Or.inr h

/-- Every cell of the attenuation grid is 0 or the stamped density of one of
the walls: doors only suppress stamping, they never create an intermediate
"reduced-loss" value. -/
theorem buildAttenuationGrid_values (walls : List Wall) (doors : List Door)
    (width height cellSize ppm : ℚ) (i : ℕ) :
    (buildAttenuationGrid walls doors width height cellSize ppm).getD i 0 = 0 ∨
    ∃ w ∈ walls, (buildAttenuationGrid walls doors width height cellSize ppm).getD i 0 =
      density ppm w := by
  unfold buildAttenuationGrid
  refine foldl_invariant_mem _
    (fun g : List ℚ => ∀ j, g.getD j 0 = 0 ∨ ∃ w ∈ walls, g.getD j 0 = density ppm w)
    walls ?_ _ ?_ i
  · intro a x hx ha j
    rcases stampWall_subvals doors _ _ cellSize ppm a x j with h | h
    · rw [h]; exact ha j
    · exact Or.inr ⟨x, hx, h⟩
  · intro j
    rw [getD_replicate]
    split <;> simp

end WE

namespace WA

/-! #### The hybrid rule, exactly -/

theorem dirA_nonneg (P : Params) (hcs : 0 ≤ P.cellSize) (hppm : 0 < P.ppm) :
    ∀ e ∈ P.directions, 0 ≤ e.2.2 := by
  have hstep : 0 ≤ P.cellSize / P.ppm := div_nonneg hcs hppm.le
  have hdiag : 0 ≤ P.cellSize / P.ppm * (14142 / 10000) := by
    exact mul_nonneg hstep (by norm_num)
  intro e he
  simp only [Params.directions, List.mem_cons, List.not_mem_nil, or_false] at he
  rcases he with h | h | h | h | h | h | h | h <;> subst h
  · exact hstep
  · exact hstep
  · exact hstep
  · exact hstep
  · exact hdiag
  · exact hdiag
  · exact hdiag
  · exact hdiag

theorem targetA_delta_nonneg (P : Params) (hcs : 0 ≤ P.cellSize) (hppm : 0 < P.ppm)
    {idx di nIdx : ℕ} {δ : ℚ} (ht : P.target idx di = some (nIdx, δ)) : 0 ≤ δ := by
  unfold Params.target at ht
  rcases hg : P.directions.get? di with _ | ⟨dr, dc, δ'⟩ <;> rw [hg] at ht
  · exact absurd ht (by simp)
  · simp only at ht
    split at ht
    · simp only [Option.some.injEq, Prod.mk.injEq] at ht
      obtain ⟨-, rfl⟩ := ht
      exact dirA_nonneg P hcs hppm _ (List.get?_mem hg)
    · exact absurd ht (by simp)

theorem centerDistSq_nonneg (P : Params) (idx : ℕ) : 0 ≤ centerDistSq P idx := by
  unfold centerDistSq
  positivity

/-- The boolean hybrid decision agrees with the source's real-number test
`newDist / max(0.01, √dsqPx / ppm) < 1.1`. -/
theorem useEuclid_iff (newDist dsqPx ppm : ℚ) (hppm : 0 < ppm)
    (hnd : 0 ≤ newDist) (hdsq : 0 ≤ dsqPx) :
    useEuclid newDist dsqPx ppm = true ↔
      (newDist : ℝ) < 11 / 10 * max (1 / 100) (Real.sqrt ((dsqPx : ℚ) : ℝ) / ((ppm : ℚ) : ℝ)) := by
  have hppm' : (0 : ℝ) < ((ppm : ℚ) : ℝ) := by exact_mod_cast hppm
  have hdsq' : (0 : ℝ) ≤ ((dsqPx : ℚ) : ℝ) := by exact_mod_cast hdsq
  have hnd' : (0 : ℝ) ≤ ((newDist : ℚ) : ℝ) := by exact_mod_cast hnd
  have hu0 : (0 : ℝ) ≤ Real.sqrt ((dsqPx : ℚ) : ℝ) := Real.sqrt_nonneg _
  have hu2 : Real.sqrt ((dsqPx : ℚ) : ℝ) ^ 2 = ((dsqPx : ℚ) : ℝ) := Real.sq_sqrt hdsq'
  unfold useEuclid
  by_cases hcl : dsqPx * 10000 ≤ ppm ^ 2
  · rw [if_pos hcl, decide_eq_true_iff]
    have hle : Real.sqrt ((dsqPx : ℚ) : ℝ) / ((ppm : ℚ) : ℝ) ≤ 1 / 100 := by
      rw [div_le_iff₀ hppm']
      have h1 : ((dsqPx : ℚ) : ℝ) ≤ (((ppm : ℚ) : ℝ) / 100) ^ 2 := by
        have h0 : ((dsqPx : ℚ) : ℝ) * 10000 ≤ ((ppm : ℚ) : ℝ) ^ 2 := by exact_mod_cast hcl
        nlinarith [h0]
      calc Real.sqrt ((dsqPx : ℚ) : ℝ) ≤ Real.sqrt ((((ppm : ℚ) : ℝ) / 100) ^ 2) :=
            Real.sqrt_le_sqrt h1
        _ = ((ppm : ℚ) : ℝ) / 100 := Real.sqrt_sq (by positivity)
        _ = 1 / 100 * ((ppm : ℚ) : ℝ) := by ring
    rw [max_eq_left hle]
    constructor
    · intro h
      have h' : ((newDist : ℚ) : ℝ) < ((11 / 1000 : ℚ) : ℝ) := by exact_mod_cast h
      calc ((newDist : ℚ) : ℝ) < ((11 / 1000 : ℚ) : ℝ) := h'
        _ = 11 / 10 * (1 / 100) := by norm_num
    · intro h
      have h' : ((newDist : ℚ) : ℝ) < ((11 / 1000 : ℚ) : ℝ) := by
        push_cast
        push_cast at h
        linarith
      exact_mod_cast h'
  · rw [if_neg hcl, decide_eq_true_iff]
    push_neg at hcl
    have hdsqpos : (0 : ℝ) < ((dsqPx : ℚ) : ℝ) := by
      have h0 : ((ppm : ℚ) : ℝ) ^ 2 < ((dsqPx : ℚ) : ℝ) * 10000 := by exact_mod_cast hcl
      nlinarith [hppm', h0]
    have hupos : (0 : ℝ) < Real.sqrt ((dsqPx : ℚ) : ℝ) := Real.sqrt_pos.mpr hdsqpos
    have hgt : (1 / 100 : ℝ) ≤ Real.sqrt ((dsqPx : ℚ) : ℝ) / ((ppm : ℚ) : ℝ) := by
      rw [le_div_iff₀ hppm']
      have h1 : (((ppm : ℚ) : ℝ) / 100) ^ 2 ≤ ((dsqPx : ℚ) : ℝ) := by
        have h0 : ((ppm : ℚ) : ℝ) ^ 2 < ((dsqPx : ℚ) : ℝ) * 10000 := by exact_mod_cast hcl
        nlinarith [h0]
      have h2 : ((ppm : ℚ) : ℝ) / 100 ≤ Real.sqrt ((dsqPx : ℚ) : ℝ) := by
        rw [show ((ppm : ℚ) : ℝ) / 100 = Real.sqrt ((((ppm : ℚ) : ℝ) / 100) ^ 2) from
          (Real.sqrt_sq (by positivity)).symm]
        exact Real.sqrt_le_sqrt h1
      calc (1 / 100 : ℝ) * ((ppm : ℚ) : ℝ) = ((ppm : ℚ) : ℝ) / 100 := by ring
        _ ≤ Real.sqrt ((dsqPx : ℚ) : ℝ) := h2
    rw [max_eq_right hgt]
    constructor
    · intro h
      have h' : (((newDist : ℚ) : ℝ) * ((ppm : ℚ) : ℝ) * 10) ^ 2 <
          121 * ((dsqPx : ℚ) : ℝ) := by exact_mod_cast h
      have key : ((newDist : ℚ) : ℝ) * ((ppm : ℚ) : ℝ) * 10 <
          11 * Real.sqrt ((dsqPx : ℚ) : ℝ) := by
        by_contra hcon
        push_neg at hcon
        have hsq : (11 * Real.sqrt ((dsqPx : ℚ) : ℝ)) ^ 2 ≤
            (((newDist : ℚ) : ℝ) * ((ppm : ℚ) : ℝ) * 10) ^ 2 :=
          pow_le_pow_left₀ (by positivity) hcon 2
        nlinarith [hsq, h', hu2]
      have h2 : ((newDist : ℚ) : ℝ) < 11 * Real.sqrt ((dsqPx : ℚ) : ℝ) / (((ppm : ℚ) : ℝ) * 10) := by
        rw [lt_div_iff₀ (by positivity)]
        calc ((newDist : ℚ) : ℝ) * (((ppm : ℚ) : ℝ) * 10)
            = ((newDist : ℚ) : ℝ) * ((ppm : ℚ) : ℝ) * 10 := by ring
          _ < 11 * Real.sqrt ((dsqPx : ℚ) : ℝ) := key
      calc ((newDist : ℚ) : ℝ) < 11 * Real.sqrt ((dsqPx : ℚ) : ℝ) / (((ppm : ℚ) : ℝ) * 10) := h2
        _ = 11 / 10 * (Real.sqrt ((dsqPx : ℚ) : ℝ) / ((ppm : ℚ) : ℝ)) := by ring
    · intro h
      have key : ((newDist : ℚ) : ℝ) * ((ppm : ℚ) : ℝ) * 10 <
          11 * Real.sqrt ((dsqPx : ℚ) : ℝ) := by
        have h2 : ((newDist : ℚ) : ℝ) * (((ppm : ℚ) : ℝ) * 10) <
            11 / 10 * (Real.sqrt ((dsqPx : ℚ) : ℝ) / ((ppm : ℚ) : ℝ)) * (((ppm : ℚ) : ℝ) * 10) :=
          (mul_lt_mul_right (by positivity)).mpr h
        calc ((newDist : ℚ) : ℝ) * ((ppm : ℚ) : ℝ) * 10
            = ((newDist : ℚ) : ℝ) * (((ppm : ℚ) : ℝ) * 10) := by ring
          _ < 11 / 10 * (Real.sqrt ((dsqPx : ℚ) : ℝ) / ((ppm : ℚ) : ℝ)) * (((ppm : ℚ) : ℝ) * 10) := h2
          _ = 11 * Real.sqrt ((dsqPx : ℚ) : ℝ) := by
              field_simp
              ring
      have hsq : (((newDist : ℚ) : ℝ) * ((ppm : ℚ) : ℝ) * 10) ^ 2 <
          (11 * Real.sqrt ((dsqPx : ℚ) : ℝ)) ^ 2 := by
        have hl : (0 : ℝ) ≤ ((newDist : ℚ) : ℝ) * ((ppm : ℚ) : ℝ) * 10 := by positivity
        exact pow_lt_pow_left₀ key hl (by norm_num)
      have h' : (((newDist : ℚ) : ℝ) * ((ppm : ℚ) : ℝ) * 10) ^ 2 <
          121 * ((dsqPx : ℚ) : ℝ) := by nlinarith [hsq, hu2]
      exact_mod_cast h'

theorem relaxA_traceOK (P : Params) (hcs : 0 ≤ P.cellSize) (hppm : 0 < P.ppm)
    (idx : ℕ) (curWL curD : ℚ) (hcurD : 0 ≤ curD) (s : AState) (di : ℕ)
    (hs : TraceOK P s) : TraceOK P (relaxA P idx curWL curD s di) := by
  unfold relaxA
  rcases ht : P.target idx di with _ | ⟨newIdx, δ⟩
  · exact hs
  · have hδ : 0 ≤ δ := targetA_delta_nonneg P hcs hppm ht
    have hnd : 0 ≤ curD + δ := add_nonneg hcurD hδ
    dsimp only
    split
    · refine ⟨?_, ?_⟩
      · intro i
        by_cases hrange : newIdx < s.distState.length
        · by_cases hij : newIdx = i
          · subst hij
            rw [WE.getD_set_self _ _ _ _ hrange]
            exact hnd
          · rw [WE.getD_set_ne _ _ _ hij]
            exact hs.1 i
        · push_neg at hrange
          rw [WE.getD_set_of_length_le _ _ _ _ _ hrange]
          exact hs.1 i
      · intro rec hrec
        rcases List.mem_append.mp hrec with hold | hnew
        · exact hs.2 rec hold
        · rcases List.mem_singleton.mp hnew with rfl
          exact ⟨hnd, rfl,
            useEuclid_iff _ _ _ hppm hnd (centerDistSq_nonneg P newIdx)⟩
    · exact hs

theorem runStepA_traceOK (P : Params) (hcs : 0 ≤ P.cellSize) (hppm : 0 < P.ppm)
    (s : AState) (hs : TraceOK P s) : TraceOK P (runStepA P s) := by
  unfold runStepA
  rcases pqDequeue s.heap with _ | ⟨idx, heap'⟩
  · exact hs
  · dsimp only
    have hs' : TraceOK P { s with heap := heap' } := hs
    split
    · exact hs'
    · refine foldl_invariant_mem _ (TraceOK P) _ ?_ _ hs'
      intro a di _ ha
      exact relaxA_traceOK P hcs hppm idx _ _ (hs'.1 idx) a di ha

theorem runA_traceOK (P : Params) (hcs : 0 ≤ P.cellSize) (hppm : 0 < P.ppm) :
    ∀ (fuel : ℕ) (s : AState), TraceOK P s → TraceOK P (runA P fuel s) := by
  intro fuel
  induction fuel with
  | zero => intro s hs; exact hs
  | succ fuel ih =>
    intro s hs
    unfold runA
    rcases s.heap with _ | _
    · exact hs
    · exact ih _ (runStepA_traceOK P hcs hppm s hs)

theorem initStateA_traceOK (P : Params) : TraceOK P (initStateA P) := by
  refine ⟨?_, ?_⟩
  · intro i
    unfold initStateA
    dsimp only
    rw [WE.getD_replicate]
    split <;> norm_num
  · intro rec hrec
    exact absurd hrec (List.not_mem_nil rec)

theorem runDijkstraA_traceOK (P : Params) (hcs : 0 ≤ P.cellSize) (hppm : 0 < P.ppm)
    (fuel : ℕ) : TraceOK P (runDijkstraA P fuel) := by
  unfold runDijkstraA
  split
  · exact runA_traceOK P hcs hppm fuel _ (initStateA_traceOK P)
  · refine ⟨?_, ?_⟩
    · intro i
      dsimp only
      rw [WE.getD_replicate]
      split <;> norm_num
    · intro rec hrec
      exact absurd hrec (List.not_mem_nil rec)

/-! #### Positivity of the produced signal representations -/

theorem candidateLoss_pos (P : Params) (hppm : 0 < P.ppm) (newIdx : ℕ)
    (wl nd : ℚ) : (candidateLoss P newIdx wl nd).Pos := by
  unfold candidateLoss LV.Pos
  dsimp only
  have h5 : (0 : ℚ) < (5000 : ℚ) ^ 40 := by positivity
  split
  · split
    · positivity
    · rename_i h2
      have hp2 : (0 : ℚ) < P.ppm ^ 2 := pow_pos hppm 2
      have hd : (0 : ℚ) < centerDistSq P newIdx := by
        push_neg at h2
        nlinarith [h2, hp2]
      positivity
  · split
    · positivity
    · rename_i h2
      have hnd : (0 : ℚ) < nd := by
        push_neg at h2
        linarith
      positivity

theorem relaxA_posSig (P : Params) (hppm : 0 < P.ppm) (idx : ℕ) (curWL curD : ℚ)
    (s : AState) (di : ℕ) (hs : PosSig s) : PosSig (relaxA P idx curWL curD s di) := by
  unfold relaxA
  rcases ht : P.target idx di with _ | ⟨newIdx, δ⟩
  · exact hs
  · dsimp only
    split
    · intro i
      by_cases hrange : newIdx < s.signal.length
      · by_cases hij : newIdx = i
        · subst hij
          rw [WE.getD_set_self _ _ _ _ hrange]
          exact inv_pos.mpr (candidateLoss_pos P hppm newIdx _ _)
        · rw [WE.getD_set_ne _ _ _ hij]
          exact hs i
      · push_neg at hrange
        rw [WE.getD_set_of_length_le _ _ _ _ _ hrange]
        exact hs i
    · exact hs

theorem runStepA_posSig (P : Params) (hppm : 0 < P.ppm) (s : AState)
    (hs : PosSig s) : PosSig (runStepA P s) := by
  unfold runStepA
  rcases pqDequeue s.heap with _ | ⟨idx, heap'⟩
  · exact hs
  · dsimp only
    have hs' : PosSig { s with heap := heap' } := hs
    split
    · exact hs'
    · refine foldl_invariant_mem _ PosSig _ ?_ _ hs'
      intro a di _ ha
      exact relaxA_posSig P hppm idx _ _ a di ha

theorem runA_posSig (P : Params) (hppm : 0 < P.ppm) :
    ∀ (fuel : ℕ) (s : AState), PosSig s → PosSig (runA P fuel s) := by
  intro fuel
  induction fuel with
  | zero => intro s hs; exact hs
  | succ fuel ih =>
    intro s hs
    unfold runA
    rcases s.heap with _ | _
    · exact hs
    · exact ih _ (runStepA_posSig P hppm s hs)

theorem initStateA_posSig (P : Params) : PosSig (initStateA P) := by
  intro i
  unfold initStateA
  dsimp only
  by_cases hrange : P.startIdx < (List.replicate (P.cols * P.rows) LV.floor).length
  · by_cases hij : P.startIdx = i
    · subst hij
      rw [WE.getD_set_self _ _ _ _ hrange]
      norm_num [LV.Pos]
    · rw [WE.getD_set_ne _ _ _ hij, WE.getD_replicate]
      split <;> exact WE.floor_pos
  · push_neg at hrange
    rw [WE.getD_set_of_length_le _ _ _ _ _ hrange, WE.getD_replicate]
    split <;> exact WE.floor_pos

theorem runDijkstraA_posSig (P : Params) (hppm : 0 < P.ppm) (fuel : ℕ) :
    PosSig (runDijkstraA P fuel) := by
  unfold runDijkstraA
  split
  · exact runA_posSig P hppm fuel _ (initStateA_posSig P)
  · intro i
    dsimp only
    rw [WE.getD_replicate]
    split <;> exact WE.floor_pos

/-! #### Max-merge lemmas -/

theorem getD_map_range {α : Type} (n i : ℕ) (f : ℕ → α) (d : α) :
    ((List.range n).map f).getD i d = if i < n then f i else d := by
  by_cases h : i < n
  · rw [if_pos h, List.getD_eq_getElem?_getD, List.getElem?_map, List.getElem?_range h]
    rfl
  · rw [if_neg h, List.getD_eq_getElem?_getD]
    have hlen : ((List.range n).map f).length ≤ i := by simpa using not_lt.mp h
    rw [List.getElem?_eq_none hlen]
    rfl

theorem mergeGrids_posF (n : ℕ) (m r : List LV × List (Option ℚ))
    (hm : PosF m) (hr : PosF r) : PosF (mergeGrids n m r) := by
  intro i
  unfold mergeGrids
  dsimp only
  rw [getD_map_range]
  split
  · split
    · exact hr i
    · exact hm i
  · exact WE.floor_pos

theorem mergeGrids_length (n : ℕ) (m r : List LV × List (Option ℚ)) :
    (mergeGrids n m r).1.length = n := by
  simp [mergeGrids]

/-- The merged field dominates its left argument cell for cell. -/
theorem mergeGrids_ge (n : ℕ) (m r : List LV × List (Option ℚ))
    (hm : PosF m) (hr : PosF r) (hlen : m.1.length ≤ n) :
    ∀ i, LV.val (m.1.getD i LV.floor) ≤
      LV.val ((mergeGrids n m r).1.getD i LV.floor) := by
  intro i
  unfold mergeGrids
  dsimp only
  rw [getD_map_range]
  by_cases h : i < n
  · rw [if_pos h]
    by_cases hb : LV.blt (m.1.getD i LV.floor) (r.1.getD i LV.floor) = true
    · rw [if_pos hb]
      exact le_of_lt ((LV.blt_iff (hm i) (hr i)).mp hb)
    · rw [if_neg hb]
  · rw [if_neg h]
    have hmi : m.1.getD i LV.floor = LV.floor := by
      rw [List.getD_eq_getElem?_getD, List.getElem?_eq_none (le_trans hlen (not_lt.mp h))]
      rfl
    rw [hmi]

theorem propagateWaveA_posF (ap : WE.AccessPoint) (walls : List Wall)
    (doors : List Door) (w h cs ppm : ℚ) (fuel : ℕ) (hppm : 0 < ppm) :
    PosF (propagateWaveA ap walls doors w h cs ppm fuel) := by
  unfold propagateWaveA
  refine foldl_invariant_mem _ PosF _ ?_ _ ?_
  · intro a wall _ ha
    exact mergeGrids_posF _ _ _ ha
      (runDijkstraA_posSig (reflParamsA ap wall walls doors w h cs ppm) hppm fuel)
  · exact runDijkstraA_posSig (mainParamsA ap walls doors w h cs ppm) hppm fuel

theorem computeCompositeA_posF_length (aps : List WE.AccessPoint)
    (walls : List Wall) (doors : List Door) (w h cs ppm : ℚ) (fuel : ℕ)
    (hppm : 0 < ppm) :
    PosF (computeCompositeHeatmapA aps walls doors w h cs ppm fuel) ∧
      (computeCompositeHeatmapA aps walls doors w h cs ppm fuel).1.length =
        Int.toNat ⌈w / cs⌉ * Int.toNat ⌈h / cs⌉ := by
  unfold computeCompositeHeatmapA
  refine foldl_invariant_mem _
    (fun f : List LV × List (Option ℚ) =>
      PosF f ∧ f.1.length = Int.toNat ⌈w / cs⌉ * Int.toNat ⌈h / cs⌉)
    aps ?_ _ ?_
  · intro a ap _ ha
    exact ⟨mergeGrids_posF _ _ _ ha.1
        (propagateWaveA_posF ap walls doors w h cs ppm fuel hppm),
      mergeGrids_length _ _ _⟩
  · constructor
    · intro i
      dsimp only
      rw [WE.getD_replicate]
      split <;> exact WE.floor_pos
    · simp

end WA


/-- C2 (amended).  Every relaxation performed by the worker solver
chooses the FSPL effective distance by the hybrid rule
`newDist / max(0.01 m, directDist) < 1.1 → use directDist, else newDist`,
where `directDist` is the Euclidean distance from the source point to the
candidate cell's centre.  The denominator is clamped at 0.01 m, so for cells
whose centre is within 0.01 m of the source the test is
`newDist < 0.011 m`, not `newDist < 1.1·directDist` as the spec states. -/
theorem C2_hybrid_rule (P : WA.Params) (fuel : ℕ)
    (hcs : 0 ≤ P.cellSize) (hppm : 0 < P.ppm) :
    ∀ rec ∈ (WA.runDijkstraA P fuel).trace,
      rec.dsqPx = WA.centerDistSq P rec.idx ∧
      (rec.usedEuclid = true ↔
        (rec.newDist : ℝ) < 11 / 10 *
          max (1 / 100) (Real.sqrt ((rec.dsqPx : ℚ) : ℝ) / ((P.ppm : ℚ) : ℝ))) := by
  intro rec hrec
  have h := (WA.runDijkstraA_traceOK P hcs hppm fuel).2 rec hrec
  exact ⟨h.2.1, h.2.2⟩

/-- Witness for C2 at the 2×1 scene: the run relaxes one cell and its
record satisfies the clamped hybrid characterization. -/
theorem C2_witness :
    (0 : ℚ) ≤ WA.c2P.cellSize ∧ (0 : ℚ) < WA.c2P.ppm ∧
    ∀ rec ∈ (WA.runDijkstraA WA.c2P 5).trace,
      rec.dsqPx = WA.centerDistSq WA.c2P rec.idx ∧
      (rec.usedEuclid = true ↔
        (rec.newDist : ℝ) < 11 / 10 *
          max (1 / 100) (Real.sqrt ((rec.dsqPx : ℚ) : ℝ) / ((WA.c2P.ppm : ℚ) : ℝ))) :=
  ⟨by decide, by decide, C2_hybrid_rule WA.c2P 5 (by decide) (by decide)⟩

/-- C2 counterexample to the unclamped rule of the spec: the relaxation
of the far cell records `newDist = 0.01 m` and `usedEuclid = true`, yet
`0.01 ≥ 1.1 · directDist` (`directDist = √(1/16) px / 40 = 0.00625 m`): the
Euclidean distance is chosen only because the denominator clamp 0.01 m
applies. -/
theorem C2_counterexample :
    (WA.runDijkstraA WA.c2P 5).trace = [⟨1, 1 / 100, 1 / 16, true⟩] ∧
    ¬ ((((1 : ℚ) / 100 : ℚ) : ℝ) <
        11 / 10 * (Real.sqrt (((1 : ℚ) / 16 : ℚ) : ℝ) / (((40 : ℚ) : ℚ) : ℝ))) := by
  constructor
  · decide
  · have hs : Real.sqrt ((((1 : ℚ) / 16 : ℚ)) : ℝ) = 1 / 4 := by
      rw [show ((((1 : ℚ) / 16 : ℚ)) : ℝ) = (1 / 4 : ℝ) ^ 2 by norm_num,
        Real.sqrt_sq (by norm_num)]
    rw [hs]
    push_cast
    norm_num

namespace WB

/-! #### Cache lemmas -/

theorem cacheGet_mem {α : Type} (c : List (String × α)) (k : String) (v : α)
    (h : cacheGet c k = some v) : (k, v) ∈ c := by
  induction c with
  | nil => simp [cacheGet] at h
  | cons e rest ih =>
    obtain ⟨k', v'⟩ := e
    rw [cacheGet] at h
    split at h
    · rename_i heq
      have hv : v' = v := by injection h
      subst hv
      subst heq
      exact List.mem_cons_self _ _
    · exact List.mem_cons_of_mem _ (ih h)

theorem cacheSet_mem {α : Type} (c : List (String × α)) (k : String) (v : α)
    (e : String × α) (h : e ∈ cacheSet c k v) : e = (k, v) ∨ e ∈ c := by
  induction c with
  | nil =>
    rw [cacheSet] at h
    exact Or.inl (List.mem_singleton.mp h)
  | cons p rest ih =>
    obtain ⟨k', v'⟩ := p
    rw [cacheSet] at h
    split at h
    · rcases List.mem_cons.mp h with h1 | h2
      · exact Or.inl h1
      · exact Or.inr (List.mem_cons_of_mem _ h2)
    · rcases List.mem_cons.mp h with h1 | h2
      · exact Or.inr (h1 ▸ List.mem_cons_self _ _)
      · rcases ih h2 with h3 | h4
        · exact Or.inl h3
        · exact Or.inr (List.mem_cons_of_mem _ h4)

/-- On a consistent cache, processing an AP always merges exactly
`propagateWave` of its projection — whether served from the cache or
recomputed — and keeps the cache consistent. -/
theorem processAp_spec (fuel : ℕ) (env : EnvB) (size : ℕ)
    (f : List ℝ × List (Option ℝ))
    (c : List (String × (ApProj × (List ℝ × List (Option ℝ))))) (ap : ApB)
    (hc : CacheGood fuel env c) :
    (processAp fuel env size (f, c) ap).1 =
      mergeGridsB size f (propagateWaveB ap.proj env fuel) ∧
    CacheGood fuel env (processAp fuel env size (f, c) ap).2 := by
  unfold processAp
  rcases hg : cacheGet c ap.id with _ | ⟨h, f0⟩
  · dsimp only
    refine ⟨rfl, ?_⟩
    intro e he
    rcases cacheSet_mem c ap.id (ap.proj, propagateWaveB ap.proj env fuel) e he with
      rfl | hmem
    · rfl
    · exact hc e hmem
  · dsimp only
    split
    · rename_i heq
      refine ⟨?_, hc⟩
      have hmem := cacheGet_mem c ap.id (h, f0) hg
      have hf0 : f0 = propagateWaveB h env fuel := hc _ hmem
      rw [hf0, heq]
    · refine ⟨rfl, ?_⟩
      intro e he
      rcases cacheSet_mem c ap.id (ap.proj, propagateWaveB ap.proj env fuel) e he with
        rfl | hmem
      · rfl
      · exact hc e hmem

/-- Folding the per-AP loop from two consistent caches yields the same
final field, and both caches stay consistent. -/
theorem foldProcess_spec (fuel : ℕ) (env : EnvB) (size : ℕ) :
    ∀ (aps : List ApB) (f : List ℝ × List (Option ℝ))
      (c1 c2 : List (String × (ApProj × (List ℝ × List (Option ℝ))))),
      CacheGood fuel env c1 → CacheGood fuel env c2 →
      (aps.foldl (processAp fuel env size) (f, c1)).1 =
        (aps.foldl (processAp fuel env size) (f, c2)).1 ∧
      CacheGood fuel env (aps.foldl (processAp fuel env size) (f, c1)).2 ∧
      CacheGood fuel env (aps.foldl (processAp fuel env size) (f, c2)).2 := by
  intro aps
  induction aps with
  | nil => intro f c1 c2 h1 h2; exact ⟨rfl, h1, h2⟩
  | cons ap rest ih =>
    intro f c1 c2 h1 h2
    rw [List.foldl_cons, List.foldl_cons]
    obtain ⟨e1, g1⟩ := processAp_spec fuel env size f c1 ap h1
    obtain ⟨e2, g2⟩ := processAp_spec fuel env size f c2 ap h2
    have hp1 : processAp fuel env size (f, c1) ap =
        (mergeGridsB size f (propagateWaveB ap.proj env fuel),
          (processAp fuel env size (f, c1) ap).2) := by
      rw [← e1]
    have hp2 : processAp fuel env size (f, c2) ap =
        (mergeGridsB size f (propagateWaveB ap.proj env fuel),
          (processAp fuel env size (f, c2) ap).2) := by
      rw [← e2]
    rw [hp1, hp2]
    exact ih _ _ _ g1 g2

theorem mergeGridsB_length (n : ℕ) (m r : List ℝ × List (Option ℝ)) :
    (mergeGridsB n m r).1.length = n := by
  simp [mergeGridsB]

/-- The max-merged field dominates its left argument cell for cell. -/
theorem mergeGridsB_ge (n : ℕ) (m r : List ℝ × List (Option ℝ))
    (hlen : m.1.length ≤ n) :
    ∀ i, m.1.getD i (-120) ≤ (mergeGridsB n m r).1.getD i (-120) := by
  intro i
  unfold mergeGridsB
  dsimp only
  rw [WA.getD_map_range]
  by_cases h : i < n
  · rw [if_pos h]
    split
    · rename_i hlt
      exact le_of_lt hlt
    · exact le_refl _
  · rw [if_neg h]
    have hmi : m.1.getD i (-120) = -120 := by
      rw [List.getD_eq_getElem?_getD, List.getElem?_eq_none (le_trans hlen (not_lt.mp h))]
      rfl
    rw [hmi]

/-- Whatever the cache does, one `processAp` step merges *some* field into
the accumulator by per-cell max. -/
theorem processAp_fst_exists (fuel : ℕ) (env : EnvB) (size : ℕ)
    (f : List ℝ × List (Option ℝ))
    (c : List (String × (ApProj × (List ℝ × List (Option ℝ))))) (ap : ApB) :
    ∃ X, (processAp fuel env size (f, c) ap).1 = mergeGridsB size f X := by
  unfold processAp
  rcases cacheGet c ap.id with _ | ⟨h, f0⟩
  · exact ⟨_, rfl⟩
  · dsimp only
    split
    · exact ⟨f0, rfl⟩
    · exact ⟨_, rfl⟩

theorem foldProcess_fst_length (fuel : ℕ) (env : EnvB) (size : ℕ) :
    ∀ (aps : List ApB) (f : List ℝ × List (Option ℝ))
      (c : List (String × (ApProj × (List ℝ × List (Option ℝ))))),
      f.1.length = size →
      (aps.foldl (processAp fuel env size) (f, c)).1.1.length = size := by
  intro aps
  induction aps with
  | nil => intro f c hf; exact hf
  | cons ap rest ih =>
    intro f c hf
    rw [List.foldl_cons]
    obtain ⟨X, hX⟩ := processAp_fst_exists fuel env size f c ap
    have hp : processAp fuel env size (f, c) ap =
        (mergeGridsB size f X, (processAp fuel env size (f, c) ap).2) := by
      rw [← hX]
    rw [hp]
    exact ih _ _ (mergeGridsB_length size f X)

end WB


/-- Composing one further emitter is one more max-merge (revision 1). -/
theorem compositeA_append (aps : List WE.AccessPoint) (b : WE.AccessPoint)
    (walls : List Wall) (doors : List Door) (w h cs ppm : ℚ) (fuel : ℕ) :
    WA.computeCompositeHeatmapA (aps ++ [b]) walls doors w h cs ppm fuel =
      WA.mergeGrids (Int.toNat ⌈w / cs⌉ * Int.toNat ⌈h / cs⌉)
        (WA.computeCompositeHeatmapA aps walls doors w h cs ppm fuel)
        (WA.propagateWaveA b walls doors w h cs ppm fuel) := by
  unfold WA.computeCompositeHeatmapA
  rw [List.foldl_append, List.foldl_cons, List.foldl_nil]

/-- C6.  Adding one further emitter never decreases the composite signal
at any cell, in either worker revision: the revision-1
`computeCompositeHeatmap` is a per-cell max fold over the emitters, and the
revision-2 `onmessage` merge (cached or freshly computed fields alike) is
one more per-cell max on top of the previous composite. -/
theorem C6_composite_monotone (walls : List Wall) (doors : List Door)
    (w h cs ppm : ℚ) (fuel : ℕ) (hppm : 0 < ppm)
    (aps : List WE.AccessPoint) (b : WE.AccessPoint)
    (fuelB : ℕ) (st : WB.WorkerCache) (apsB : List WB.ApB) (bB : WB.ApB)
    (env : WB.EnvB) :
    (∀ i, LV.val
        ((WA.computeCompositeHeatmapA aps walls doors w h cs ppm fuel).1.getD i LV.floor) ≤
      LV.val
        ((WA.computeCompositeHeatmapA (aps ++ [b]) walls doors w h cs ppm fuel).1.getD i
          LV.floor)) ∧
    (∀ i, (WB.handleMessage fuelB st ⟨apsB, env⟩).1.1.getD i (-120) ≤
      (WB.handleMessage fuelB st ⟨apsB ++ [bB], env⟩).1.1.getD i (-120)) := by
  constructor
  · intro i
    rw [compositeA_append]
    obtain ⟨hpos, hlen⟩ :=
      WA.computeCompositeA_posF_length aps walls doors w h cs ppm fuel hppm
    exact WA.mergeGrids_ge _ _ _ hpos
      (WA.propagateWaveA_posF b walls doors w h cs ppm fuel hppm) (le_of_eq hlen) i
  · intro i
    unfold WB.handleMessage
    dsimp only
    rw [List.foldl_append, List.foldl_cons, List.foldl_nil]
    obtain ⟨X, hX⟩ := WB.processAp_fst_exists fuelB env
      (Int.toNat ⌈env.width / env.cellSize⌉ * Int.toNat ⌈env.height / env.cellSize⌉)
      (apsB.foldl (WB.processAp fuelB env
          (Int.toNat ⌈env.width / env.cellSize⌉ * Int.toNat ⌈env.height / env.cellSize⌉))
        ((List.replicate (Int.toNat ⌈env.width / env.cellSize⌉ *
            Int.toNat ⌈env.height / env.cellSize⌉) (-120 : ℝ),
          List.replicate (Int.toNat ⌈env.width / env.cellSize⌉ *
            Int.toNat ⌈env.height / env.cellSize⌉) (none : Option ℝ)),
          if st.lastEnv = some env then st.apCache else [])).1
      (apsB.foldl (WB.processAp fuelB env
          (Int.toNat ⌈env.width / env.cellSize⌉ * Int.toNat ⌈env.height / env.cellSize⌉))
        ((List.replicate (Int.toNat ⌈env.width / env.cellSize⌉ *
            Int.toNat ⌈env.height / env.cellSize⌉) (-120 : ℝ),
          List.replicate (Int.toNat ⌈env.width / env.cellSize⌉ *
            Int.toNat ⌈env.height / env.cellSize⌉) (none : Option ℝ)),
          if st.lastEnv = some env then st.apCache else [])).2 bB
    rw [Prod.mk.eta] at hX
    rw [hX]
    apply WB.mergeGridsB_ge
    rw [WB.foldProcess_fst_length]
    simp

/-- Witness for C6: an empty room with one emitter added to an empty and to
a one-emitter set, in both revisions. -/
theorem C6_witness :
    (0 : ℚ) < 40 ∧
    ((∀ i, LV.val
        ((WA.computeCompositeHeatmapA [] [] [] 20 10 10 40 3).1.getD i LV.floor) ≤
      LV.val
        ((WA.computeCompositeHeatmapA ([] ++ [⟨"a", 5, 5, 20⟩]) [] [] 20 10 10 40 3).1.getD i
          LV.floor)) ∧
    (∀ i, (WB.handleMessage 3 WB.initialCache ⟨[], WB.c9env⟩).1.1.getD i (-120) ≤
      (WB.handleMessage 3 WB.initialCache ⟨[] ++ [WB.c9ap], WB.c9env⟩).1.1.getD i (-120))) :=
  ⟨by norm_num,
    C6_composite_monotone [] [] 20 10 10 40 3 (by norm_num) [] ⟨"a", 5, 5, 20⟩
      3 WB.initialCache [] WB.c9ap WB.c9env⟩

/-- C9.  `onmessage` is deterministic including across the cache: from
any reachable worker state, a request is answered with exactly the field the
fresh (empty-cache) computation produces, and the worker state stays
consistent.  Cached entries can be reused only when both the environment
hash (all wall/door fields and the dimensions) and the per-AP hash (the
seven properties `propagateWave` reads) match, so a hit returns the very
field the fresh run would recompute. -/
theorem C9_cache_determinism (fuel : ℕ) (st : WB.WorkerCache) (msg : WB.MsgB)
    (hst : WB.ValidCache fuel st) :
    (WB.handleMessage fuel st msg).1 = (WB.handleMessage fuel WB.initialCache msg).1 ∧
    WB.ValidCache fuel (WB.handleMessage fuel st msg).2 := by
  unfold WB.handleMessage
  dsimp only
  rw [if_neg (show ¬ WB.initialCache.lastEnv = some msg.env by simp [WB.initialCache])]
  by_cases henv : st.lastEnv = some msg.env
  · rw [if_pos henv]
    have hgood : WB.CacheGood fuel msg.env st.apCache := by
      rcases hst with ⟨hn, -⟩ | ⟨env0, hsome, hg⟩
      · rw [hn] at henv
        exact absurd henv (by simp)
      · rw [hsome] at henv
        have henv0 : env0 = msg.env := by injection henv
        rw [← henv0]
        exact hg
    obtain ⟨heq, hg1, -⟩ := WB.foldProcess_spec fuel msg.env _ msg.aps _ st.apCache []
      hgood (fun e he => absurd he (List.not_mem_nil e))
    exact ⟨heq, Or.inr ⟨msg.env, rfl, hg1⟩⟩
  · rw [if_neg henv]
    obtain ⟨-, hg1, -⟩ := WB.foldProcess_spec fuel msg.env _ msg.aps _ [] []
      (fun e he => absurd he (List.not_mem_nil e))
      (fun e he => absurd he (List.not_mem_nil e))
    exact ⟨rfl, Or.inr ⟨msg.env, rfl, hg1⟩⟩

/-- Witness for C9: a state whose cache already holds the emitter's field
answers identically to the fresh computation. -/
theorem C9_witness :
    WB.ValidCache 4 WB.c9state ∧
    ((WB.handleMessage 4 WB.c9state ⟨[WB.c9ap], WB.c9env⟩).1 =
        (WB.handleMessage 4 WB.initialCache ⟨[WB.c9ap], WB.c9env⟩).1 ∧
      WB.ValidCache 4 (WB.handleMessage 4 WB.c9state ⟨[WB.c9ap], WB.c9env⟩).2) := by
  have hvalid : WB.ValidCache 4 WB.c9state := by
    right
    refine ⟨WB.c9env, rfl, ?_⟩
    intro e he
    rcases List.mem_singleton.mp he with rfl
    rfl
  exact ⟨hvalid, C9_cache_determinism 4 WB.c9state ⟨[WB.c9ap], WB.c9env⟩ hvalid⟩

/-- C3 (amended).  In `waveEngine.ts` (and the first worker revision),
every metal wall's stamped cells receive the fixed density 2000 dB/m,
independent of the wall's thickness, while non-metal walls get
`materialLoss / thicknessMeters`; every grid cell is 0 or one of the walls'
densities.  In the *second* worker revision there is no metal special case:
metal density is `materialLoss / thicknessMeters × 2 = 160·ppm/thicknessPx`,
which depends on the thickness (and is not a fixed thousands constant). -/
theorem C3_metal_density (ppm : ℚ) :
    (∀ w : Wall, w.material = .metal → WE.density ppm w = 2000) ∧
    (∀ w : Wall, w.material ≠ .metal → WE.density ppm w =
      materialAttenuationTypes w.material / ((if w.thickness = 0 then 12 else w.thickness) / ppm)) ∧
    (∀ walls doors width height cellSize i,
      (WE.buildAttenuationGrid walls doors width height cellSize ppm).getD i 0 = 0 ∨
      ∃ w ∈ walls, (WE.buildAttenuationGrid walls doors width height cellSize ppm).getD i 0 =
        WE.density ppm w) ∧
    (∀ w : Wall, w.material = .metal → WB.density ppm w =
      160 * ppm / (if w.thickness = 0 then 12 else w.thickness)) := by
  refine ⟨?_, ?_, ?_, ?_⟩
  · intro w hw
    unfold WE.density
    rw [if_pos hw]
  · intro w hw
    unfold WE.density
    rw [if_neg hw]
  · intro walls doors width height cellSize i
    exact WE.buildAttenuationGrid_values walls doors width height cellSize ppm i
  · intro w hw
    unfold WB.density
    rw [hw]
    simp only [materialAttenuationWorkerB]
    rw [if_pos (by simp)]
    set t : ℚ := if w.thickness = 0 then 12 else w.thickness
    rw [div_div_eq_mul_div]
    ring

/-- Witness for C3 on a concrete metal wall. -/
theorem C3_witness :
    WB.thinMetal.material = Material.metal ∧
    WE.density 40 WB.thinMetal = 2000 ∧
    WB.density 40 WB.thinMetal = 160 * 40 / (if WB.thinMetal.thickness = 0 then 12
      else WB.thinMetal.thickness) :=
  ⟨rfl, (C3_metal_density 40).1 WB.thinMetal rfl,
    (C3_metal_density 40).2.2.2 WB.thinMetal rfl⟩

namespace WE


/-- One door's boolean gap test agrees with the real closed-interval
condition on the distance along the wall (`distAlongWall = t·√S`,
`doorPos = ratio·√S`). -/
theorem inGap_iff (d : Door) (t S : ℚ) (hS : 0 ≤ S) :
    inGap d t S = true ↔
      ((d.ratio : ℝ) * Real.sqrt (S : ℚ) - (d.width : ℚ) / 2 ≤
          (t : ℝ) * Real.sqrt (S : ℚ) ∧
        (t : ℝ) * Real.sqrt (S : ℚ) ≤
          (d.ratio : ℝ) * Real.sqrt (S : ℚ) + (d.width : ℚ) / 2) := by
  unfold inGap
  rw [Bool.and_eq_true, leSqrt_iff _ _ _ hS, leSqrt_iff _ _ _ hS]
  constructor
  · rintro ⟨h1, h2⟩
    push_cast at h1 h2
    rw [sub_mul] at h1 h2
    constructor <;> linarith
  · rintro ⟨h1, h2⟩
    constructor
    · push_cast
      rw [sub_mul]
      linarith
    · push_cast
      rw [sub_mul]
      linarith

end WE


/-- C8.  During grid construction a wall sample at parameter `t` is
skipped (the guard of the stamp is true) exactly when the distance along the
wall `t·L` lies in the closed window `[ratio·L − width/2, ratio·L + width/2]`
of some door attached to that wall (`L = √S` the wall length); and a door
never produces a reduced-loss cell: every cell of the grid is 0 or the full
stamped density of one of the walls. -/
theorem C8_door_gap_exclusion (doors : List Door) (wall : Wall) (t S : ℚ)
    (hS : 0 ≤ S) :
    (((doors.filter (fun dr => dr.wallId = wall.id)).any
        (fun dr => WE.inGap dr t S)) = true ↔
      ∃ dr ∈ doors, dr.wallId = wall.id ∧
        (dr.ratio : ℝ) * Real.sqrt (S : ℚ) - (dr.width : ℚ) / 2 ≤
            (t : ℝ) * Real.sqrt (S : ℚ) ∧
          (t : ℝ) * Real.sqrt (S : ℚ) ≤
            (dr.ratio : ℝ) * Real.sqrt (S : ℚ) + (dr.width : ℚ) / 2) ∧
    (∀ walls width height cellSize ppm i,
      (WE.buildAttenuationGrid walls doors width height cellSize ppm).getD i 0 = 0 ∨
      ∃ w ∈ walls,
        (WE.buildAttenuationGrid walls doors width height cellSize ppm).getD i 0 =
          WE.density ppm w) := by
  constructor
  · rw [List.any_eq_true]
    constructor
    · rintro ⟨dr, hmem, hgap⟩
      rw [List.mem_filter] at hmem
      obtain ⟨hmem', hid⟩ := hmem
      refine ⟨dr, hmem', of_decide_eq_true hid, ?_⟩
      exact (WE.inGap_iff dr t S hS).mp hgap
    · rintro ⟨dr, hmem, hid, hcond⟩
      refine ⟨dr, ?_, ?_⟩
      · rw [List.mem_filter]
        exact ⟨hmem, decide_eq_true hid⟩
      · exact (WE.inGap_iff dr t S hS).mpr hcond
  · intro walls width height cellSize ppm i
    exact WE.buildAttenuationGrid_values walls doors width height cellSize ppm i

/-- Witness for C8: a 3-4-5 wall of length 50 px with a centred 10 px door. -/
theorem C8_witness :
    (0 : ℚ) ≤ 2500 ∧
    (((([WE.c8door].filter (fun dr => dr.wallId = WE.c8wall.id)).any
        (fun dr => WE.inGap dr (1 / 2) 2500)) = true ↔
      ∃ dr ∈ [WE.c8door], dr.wallId = WE.c8wall.id ∧
        (dr.ratio : ℝ) * Real.sqrt ((2500 : ℚ)) - (dr.width : ℚ) / 2 ≤
            ((1 / 2 : ℚ) : ℝ) * Real.sqrt ((2500 : ℚ)) ∧
          ((1 / 2 : ℚ) : ℝ) * Real.sqrt ((2500 : ℚ)) ≤
            (dr.ratio : ℝ) * Real.sqrt ((2500 : ℚ)) + (dr.width : ℚ) / 2) ∧
    (∀ walls width height cellSize ppm i,
      (WE.buildAttenuationGrid walls [WE.c8door] width height cellSize ppm).getD i 0 = 0 ∨
      ∃ w ∈ walls,
        (WE.buildAttenuationGrid walls [WE.c8door] width height cellSize ppm).getD i 0 =
          WE.density ppm w)) :=
  ⟨by norm_num, C8_door_gap_exclusion [WE.c8door] WE.c8wall (1 / 2) 2500 (by norm_num)⟩

/-- C10.  `getIntersection` returns a point exactly when the denominator
is nonzero and both parametric values `s`, `t` lie in `[0, 1]`, in which case
the point is the parametric point at `t` on the first segment; a zero
denominator (parallel or degenerate segments) always yields `none`, never a
crash or a point. -/
theorem C10_segment_intersection (p0 p1 p2 p3 : Pt) :
    ((-(p3.x - p2.x) * (p1.y - p0.y) + (p1.x - p0.x) * (p3.y - p2.y) = 0) →
      getIntersection p0 p1 p2 p3 = none) ∧
    ∀ p : Pt, getIntersection p0 p1 p2 p3 = some p ↔
      ∃ s t : ℚ,
        -(p3.x - p2.x) * (p1.y - p0.y) + (p1.x - p0.x) * (p3.y - p2.y) ≠ 0 ∧
        s = (-(p1.y - p0.y) * (p0.x - p2.x) + (p1.x - p0.x) * (p0.y - p2.y)) /
              (-(p3.x - p2.x) * (p1.y - p0.y) + (p1.x - p0.x) * (p3.y - p2.y)) ∧
        t = ((p3.x - p2.x) * (p0.y - p2.y) - (p3.y - p2.y) * (p0.x - p2.x)) /
              (-(p3.x - p2.x) * (p1.y - p0.y) + (p1.x - p0.x) * (p3.y - p2.y)) ∧
        0 ≤ s ∧ s ≤ 1 ∧ 0 ≤ t ∧ t ≤ 1 ∧
        p = ⟨p0.x + t * (p1.x - p0.x), p0.y + t * (p1.y - p0.y)⟩ := by
  constructor
  · intro h
    unfold getIntersection
    dsimp only
    rw [if_pos h]
  · intro p
    unfold getIntersection
    dsimp only
    split
    · rename_i h
      constructor
      · intro hcon
        exact absurd hcon (by simp)
      · rintro ⟨s, t, hne, -⟩
        exact absurd h hne
    · rename_i h
      split
      · rename_i hc
        constructor
        · intro hsome
          refine ⟨_, _, h, rfl, rfl, hc.1, hc.2.1, hc.2.2.1, hc.2.2.2, ?_⟩
          exact (Option.some.injEq _ _ ▸ hsome).symm
        · rintro ⟨s, t, hne, hs, ht, h0s, hs1, h0t, ht1, hp⟩
          subst hs
          subst ht
          subst hp
          rfl
      · rename_i hc
        constructor
        · intro hcon
          exact absurd hcon (by simp)
        · rintro ⟨s, t, hne, hs, ht, h0s, hs1, h0t, ht1, hp⟩
          exfalso
          apply hc
          subst hs
          subst ht
          exact ⟨h0s, hs1, h0t, ht1⟩

/-- Witness for C10: crossing diagonals meet at (1,1); parallel unit
diagonals yield `none` through the zero-denominator branch. -/
theorem C10_witness :
    getIntersection ⟨0, 0⟩ ⟨2, 2⟩ ⟨0, 2⟩ ⟨2, 0⟩ = some ⟨1, 1⟩ ∧
    getIntersection ⟨0, 0⟩ ⟨1, 1⟩ ⟨1, 0⟩ ⟨2, 1⟩ = none := by
  constructor
  · exact ((C10_segment_intersection ⟨0, 0⟩ ⟨2, 2⟩ ⟨0, 2⟩ ⟨2, 0⟩).2 ⟨1, 1⟩).mpr
      ⟨1 / 2, 1 / 2, by norm_num, by norm_num, by norm_num, by norm_num,
        by norm_num, by norm_num, by norm_num, by norm_num⟩
  · exact (C10_segment_intersection ⟨0, 0⟩ ⟨1, 1⟩ ⟨1, 0⟩ ⟨2, 1⟩).1 (by norm_num)

/-- C3 counterexample.  The second worker revision's builder stamps a
metal wall of thickness 12 px with 1600/3 ≈ 533 dB/m and the same wall of
thickness 24 px with 800/3 ≈ 267 dB/m: the stamped metal density depends on
the wall's thickness and is well below "thousands of dB/m". -/
theorem C3_counterexample :
    (WB.buildAttenuationGrid [WB.thinMetal] [] 40 10 10 40).getD 2 0 = 1600 / 3 ∧
    (WB.buildAttenuationGrid [WB.thickMetal] [] 40 10 10 40).getD 2 0 = 800 / 3 ∧
    (1600 / 3 : ℚ) ≠ 800 / 3 ∧ (1600 / 3 : ℚ) < 2000 := by
  refine ⟨by decide, by decide, by decide, by decide⟩

end HeatmapAP
